import Mathlib

/-!
# rust-rover: the Go caller (`main.go`) and the rover engine it calls

Shallow embedding of `getRoverCoordinates`, `resolveLibPath`, `main` and the
closure `get_rover_coordinates` of `main.go`, together with the two standard
library routines their behaviour rests on (`fmt.Errorf` with no operands and
`json.Unmarshal` into `CoordinatesResult`), and a model of the rover engine
behind `extern_return_coordinates`.

Go strings are modelled as Lean strings (well-formed text); a Go `error` is
`Option GoError`, `none` being `nil`; the foreign function is a state
transformer over an arbitrary world type, so that calls to it are observable.
-/

set_option autoImplicit false

namespace RustRover

/-! ## Outcomes -/

/-- Equality of outcomes can be decided when it can for errors and values. -/
instance instDecidableEqExcept {ε α : Type} [DecidableEq ε] [DecidableEq α] :
    DecidableEq (Except ε α) := fun a b =>
  match a, b with
  | .error x, .error y =>
    if h : x = y then isTrue (by rw [h]) else isFalse (fun k => h (by injection k))
  | .ok x, .ok y =>
    if h : x = y then isTrue (by rw [h]) else isFalse (fun k => h (by injection k))
  | .error _, .ok _ => isFalse (fun k => by cases k)
  | .ok _, .error _ => isFalse (fun k => by cases k)

/-! ## `fmt`: formatting with no operands -/

namespace Fmt

/-- The flag characters skipped after a percent sign (`#0+- `). -/
def isFlag (c : Char) : Bool :=
  c == '#' || c == '0' || c == '+' || c == '-' || c == ' '

/-- The flags loop of `doPrintf`: with no operands the fast path for simple
verbs is never taken, so the loop only skips flag characters. -/
def skipFlags : List Char → List Char
  | [] => []
  | c :: cs => if isFlag c then skipFlags cs else c :: cs

/-- The value of `tooLarge`: a number beyond one million in magnitude. -/
def tooLarge (x : Nat) : Bool := decide (x > 1000000)

/-- The loop of `parsenum`: `none` is the overflow exit, otherwise the number
read, whether a digit was seen, and the unread input. -/
def parsenumLoop : Nat → Bool → List Char → Option (Nat × Bool × List Char)
  | num, isnum, [] => some (num, isnum, [])
  | num, isnum, c :: cs =>
    if c.isDigit then
      if tooLarge num then none
      else parsenumLoop (num * 10 + (c.toNat - '0'.toNat)) true cs
    else some (num, isnum, c :: cs)

/-- Function `parsenum` up to the end of the format: whether a number was read
and the unread input; on overflow the index jumps to the end. -/
def parsenum (cs : List Char) : Bool × List Char :=
  match parsenumLoop 0 false cs with
  | none => (false, [])
  | some (_, isnum, rest) => (isnum, rest)

/-- Splits at the first closing bracket: the text before it and after it. -/
def splitAtClose : List Char → Option (List Char × List Char)
  | [] => none
  | c :: cs =>
    if c == ']' then some ([], cs)
    else match splitAtClose cs with
      | none => none
      | some (inner, after) => some (c :: inner, after)

/-- Functions `argNumber` and `parseArgNumber` with no operands: the unread
input, `found`, and whether an opening bracket was seen (which, there being no
operand an index could name, always clears `goodArgNum`). -/
def argNumber (cs : List Char) : List Char × Bool × Bool :=
  match cs with
  | '[' :: tl =>
    if cs.length < 3 then (tl, false, true)
    else match splitAtClose tl with
      | none => (tl, false, true)
      | some (inner, after) =>
        match parsenumLoop 0 false inner with
        | some (_, true, []) => (after, true, true)
        | _ => (after, false, true)
  | _ => (cs, false, false)

def badWidthString : List Char := "%!(BADWIDTH)".data
def badPrecString : List Char := "%!(BADPREC)".data
def noVerbString : List Char := "%!(NOVERB)".data

/-- The width part of one directive: text written, unread input, `afterIndex`,
`goodArgNum`. -/
def width (cs : List Char) (afterIndex good : Bool) :
    List Char × List Char × Bool × Bool :=
  match cs with
  | '*' :: tl => (badWidthString, tl, false, good)
  | _ =>
    let r := parsenum cs
    ([], r.2, afterIndex, good && !(afterIndex && r.1))

/-- The precision part of one directive: text written, unread input,
`afterIndex`, `goodArgNum`. -/
def precision (cs : List Char) (afterIndex good : Bool) :
    List Char × List Char × Bool × Bool :=
  match cs with
  | '.' :: tl =>
    let good1 := good && !afterIndex
    let a := argNumber tl
    let good2 := good1 && !a.2.2
    match a.1 with
    | '*' :: tl2 => (badPrecString, tl2, false, good2)
    | rest => ([], (parsenum rest).2, a.2.1, good2)
  | _ => ([], cs, afterIndex, good)

/-- The verb itself: `%%` writes a percent sign; any other verb has no operand
left and writes `%!v(BADINDEX)` or `%!v(MISSING)`; the end of the format writes
`%!(NOVERB)`. -/
def verbText (cs : List Char) (good : Bool) : List Char × List Char :=
  match cs with
  | [] => (noVerbString, [])
  | v :: rest =>
    if v == '%' then (['%'], rest)
    else if !good then ('%' :: '!' :: v :: "(BADINDEX)".data, rest)
    else ('%' :: '!' :: v :: "(MISSING)".data, rest)

/-- One directive of `doPrintf`, from just after its percent sign: the text
written and the unread input. -/
def directive (cs : List Char) : List Char × List Char :=
  let a := argNumber (skipFlags cs)
  let w := width a.1 a.2.1 (!a.2.2)
  let p := precision w.2.1 w.2.2.1 w.2.2.2
  let b := if p.2.2.1 then (p.2.1, false, false) else argNumber p.2.1
  let v := verbText b.1 (p.2.2.2 && !b.2.2)
  (w.1 ++ p.1 ++ v.1, v.2)

/-- The format loop of `doPrintf` with no operands. The fuel bounds the number
of steps; each step consumes input, so the length of the format is enough. -/
def doPrintf : Nat → List Char → List Char
  | 0, _ => []
  | _ + 1, [] => []
  | fuel + 1, c :: cs =>
    if c == '%' then
      let d := directive cs
      d.1 ++ doPrintf fuel d.2
    else c :: doPrintf fuel cs

/-- The text of `fmt.Sprintf(format)` and of `fmt.Errorf(format).Error()`. -/
def sprintf0 (format : String) : String :=
  String.mk (doPrintf format.data.length format.data)

end Fmt

/-! ## `encoding/json`: decoding into `CoordinatesResult` -/

namespace Json

/-- The errors of `json.Unmarshal`: a `SyntaxError` with its message, or an
`UnmarshalTypeError` with the JSON kind met and the struct field it was meant
for (`none` at the top level). `outOfFuel` is the model running out of steps,
which `unmarshal_ne_outOfFuel` shows never to be the outcome. -/
inductive JsonError where
  | syntaxError (msg : String)
  | unmarshalTypeError (value : String) (field : Option String)
  | outOfFuel
  deriving DecidableEq, Repr

def hexDigit (n : Nat) : Char :=
  if n < 10 then Char.ofNat ('0'.toNat + n) else Char.ofNat ('a'.toNat + (n - 10))

/-- The first byte of the UTF-8 encoding of a character. -/
def leadByte (c : Char) : Nat :=
  let n := c.toNat
  if n < 0x80 then n
  else if n < 0x800 then 0xC0 + n / 64
  else if n < 0x10000 then 0xE0 + n / 4096
  else 0xF0 + n / 262144

/-- Function `quoteChar` of the scanner, applied to the byte at which the
scanner stopped. -/
def quoteChar (c : Char) : String :=
  let b := leadByte c
  if b = 0x27 then "'\\''"
  else if b = 0x22 then "'\"'"
  else if b = 0x5C then "'\\\\'"
  else if b = 7 then "'\\a'"
  else if b = 8 then "'\\b'"
  else if b = 12 then "'\\f'"
  else if b = 10 then "'\\n'"
  else if b = 13 then "'\\r'"
  else if b = 9 then "'\\t'"
  else if b = 11 then "'\\v'"
  else if b < 0x20 ∨ b = 0x7F then
    String.mk ['\'', '\\', 'x', hexDigit (b / 16), hexDigit (b % 16), '\'']
  else String.mk ['\'', Char.ofNat b, '\'']

/-- The scanner's error at the unread input `cs`. At the end of the input the
scanner is stepped once more with a space: a state that takes a space reports
the unexpected end, any other reports the space. -/
def syntaxErr (cs : List Char) (context : String) (spaceOk : Bool) : JsonError :=
  match cs with
  | [] =>
    if spaceOk then .syntaxError "unexpected end of JSON input"
    else .syntaxError ("invalid character ' ' " ++ context)
  | c :: _ => .syntaxError ("invalid character " ++ quoteChar c ++ " " ++ context)

def isSpace (c : Char) : Bool :=
  c == ' ' || c == '\t' || c == '\r' || c == '\n'

def skipSpace : List Char → List Char
  | [] => []
  | c :: cs => if isSpace c then skipSpace cs else c :: cs

/-- A decoded piece of a string literal: a character, or the UTF-16 code unit
of a `\u` escape. -/
inductive StrUnit where
  | chr (c : Char)
  | u16 (n : Nat)
  deriving DecidableEq, Repr

/-- The scanner states inside a string literal: `stateInString`,
`stateInStringEsc`, and `stateInStringEscU` with the number of hex digits
read and their value. -/
inductive StrState where
  | plain
  | esc
  | hex (k : Nat) (acc : Nat)

def hexVal (c : Char) : Option Nat :=
  if '0' ≤ c ∧ c ≤ '9' then some (c.toNat - '0'.toNat)
  else if 'a' ≤ c ∧ c ≤ 'f' then some (c.toNat - 'a'.toNat + 10)
  else if 'A' ≤ c ∧ c ≤ 'F' then some (c.toNat - 'A'.toNat + 10)
  else none

/-- The one-letter escapes of `stateInStringEsc`, each with the character it
stands for. -/
def escapes : List (Char × Char) :=
  [('b', Char.ofNat 8), ('f', Char.ofNat 12), ('n', '\n'), ('r', '\r'), ('t', '\t'),
    ('\\', '\\'), ('/', '/'), ('"', '"')]

/-- The character a one-letter escape stands for. -/
def unescape (c : Char) : Option Char :=
  escapes.lookup c

/-- Scans a string literal from just after its opening quote: its pieces and
the input after the closing quote. -/
def scanString : StrState → List Char → Except JsonError (List StrUnit × List Char)
  | .plain, [] => .error (syntaxErr [] "in string literal" true)
  | .esc, [] => .error (syntaxErr [] "in string escape code" false)
  | .hex _ _, [] => .error (syntaxErr [] "in \\u hexadecimal character escape" false)
  | .plain, c :: cs =>
    if c == '"' then .ok ([], cs)
    else if c == '\\' then scanString .esc cs
    else if c.toNat < 0x20 then .error (syntaxErr (c :: cs) "in string literal" true)
    else match scanString .plain cs with
      | .error e => .error e
      | .ok (us, rest) => .ok (.chr c :: us, rest)
  | .esc, c :: cs =>
    match unescape c with
    | some d =>
      match scanString .plain cs with
      | .error e => .error e
      | .ok (us, rest) => .ok (.chr d :: us, rest)
    | none =>
      if c == 'u' then scanString (.hex 0 0) cs
      else .error (syntaxErr (c :: cs) "in string escape code" false)
  | .hex k acc, c :: cs =>
    match hexVal c with
    | none => .error (syntaxErr (c :: cs) "in \\u hexadecimal character escape" false)
    | some v =>
      if k < 3 then scanString (.hex (k + 1) (acc * 16 + v)) cs
      else match scanString .plain cs with
        | .error e => .error e
        | .ok (us, rest) => .ok (.u16 (acc * 16 + v) :: us, rest)

def replacementChar : Char := Char.ofNat 0xFFFD

def isSurrogate (n : Nat) : Bool := decide (0xD800 ≤ n ∧ n < 0xE000)

/-- The work of `unquote` on `\u` escapes: a high and a low surrogate in a row
make one character, any other surrogate becomes U+FFFD. -/
def combine : List StrUnit → List Char
  | [] => []
  | .chr c :: us => c :: combine us
  | .u16 hi :: .u16 lo :: us =>
    if 0xD800 ≤ hi ∧ hi < 0xDC00 ∧ 0xDC00 ≤ lo ∧ lo < 0xE000 then
      Char.ofNat ((hi - 0xD800) * 1024 + (lo - 0xDC00) + 0x10000) :: combine us
    else if isSurrogate hi then replacementChar :: combine (.u16 lo :: us)
    else Char.ofNat hi :: combine (.u16 lo :: us)
  | .u16 n :: us =>
    if isSurrogate n then replacementChar :: combine us
    else Char.ofNat n :: combine us

/-- The scanner states inside a number: `stateNeg`, `state1`, `state0`,
`stateDot`, `stateDot0`, `stateE`, `stateESign`, `stateE0`. -/
inductive NumState where
  | neg | one | zero | dot | dot0 | e | eSign | e0

/-- Scans a number: the input from the first character that is not part of
it. -/
def scanNumber : NumState → List Char → Except JsonError (List Char)
  | .neg, [] => .error (syntaxErr [] "in numeric literal" false)
  | .dot, [] => .error (syntaxErr [] "after decimal point in numeric literal" false)
  | .e, [] => .error (syntaxErr [] "in exponent of numeric literal" false)
  | .eSign, [] => .error (syntaxErr [] "in exponent of numeric literal" false)
  | _, [] => .ok []
  | .neg, c :: cs =>
    if c == '0' then scanNumber .zero cs
    else if '1' ≤ c ∧ c ≤ '9' then scanNumber .one cs
    else .error (syntaxErr (c :: cs) "in numeric literal" false)
  | .one, c :: cs =>
    if '0' ≤ c ∧ c ≤ '9' then scanNumber .one cs
    else if c == '.' then scanNumber .dot cs
    else if c == 'e' || c == 'E' then scanNumber .e cs
    else .ok (c :: cs)
  | .zero, c :: cs =>
    if c == '.' then scanNumber .dot cs
    else if c == 'e' || c == 'E' then scanNumber .e cs
    else .ok (c :: cs)
  | .dot, c :: cs =>
    if '0' ≤ c ∧ c ≤ '9' then scanNumber .dot0 cs
    else .error (syntaxErr (c :: cs) "after decimal point in numeric literal" false)
  | .dot0, c :: cs =>
    if '0' ≤ c ∧ c ≤ '9' then scanNumber .dot0 cs
    else if c == 'e' || c == 'E' then scanNumber .e cs
    else .ok (c :: cs)
  | .e, c :: cs =>
    if c == '+' || c == '-' then scanNumber .eSign cs
    else if '0' ≤ c ∧ c ≤ '9' then scanNumber .e0 cs
    else .error (syntaxErr (c :: cs) "in exponent of numeric literal" false)
  | .eSign, c :: cs =>
    if '0' ≤ c ∧ c ≤ '9' then scanNumber .e0 cs
    else .error (syntaxErr (c :: cs) "in exponent of numeric literal" false)
  | .e0, c :: cs =>
    if '0' ≤ c ∧ c ≤ '9' then scanNumber .e0 cs
    else .ok (c :: cs)

/-- Scans the rest of `true`, `false` or `null` after its first letter. -/
def scanLiteral (name : String) : List Char → List Char → Except JsonError (List Char)
  | [], cs => .ok cs
  | x :: _, [] =>
    .error (syntaxErr [] ("in literal " ++ name ++ " (expecting " ++ quoteChar x ++ ")") false)
  | x :: xs, c :: cs =>
    if c == x then scanLiteral name xs cs
    else .error (syntaxErr (c :: cs)
      ("in literal " ++ name ++ " (expecting " ++ quoteChar x ++ ")") false)

/-- What the decoder needs of a nested value: its JSON kind and, for a string,
its text. -/
inductive Kind where
  | null | bool | number | array | object
  | string (s : List Char)
  deriving DecidableEq, Repr

/-- A parsed value: as `Kind`, an object carrying its members in order. -/
inductive Val where
  | null | bool | number | array
  | string (s : List Char)
  | object (members : List (List Char × Kind))
  deriving DecidableEq, Repr

def Val.kind : Val → Kind
  | .null => .null
  | .bool => .bool
  | .number => .number
  | .array => .array
  | .string s => .string s
  | .object _ => .object

def maxNestingDepth : Nat := 10000

/-- The members of an object from after its first key's position on, `pv`
parsing one value: `stateBeginString`, the key, the colon, the value, then a
comma or the closing brace. -/
def parseMembers (pv : List Char → Except JsonError (Val × List Char)) :
    Nat → List Char → Except JsonError (List (List Char × Kind) × List Char)
  | 0, _ => .error .outOfFuel
  | fuel + 1, cs =>
    match skipSpace cs with
    | '"' :: r0 =>
      match scanString .plain r0 with
      | .error e => .error e
      | .ok (key, r1) =>
        match skipSpace r1 with
        | ':' :: r2 =>
          match pv r2 with
          | .error e => .error e
          | .ok (v, r3) =>
            match skipSpace r3 with
            | ',' :: r4 =>
              match parseMembers pv fuel r4 with
              | .error e => .error e
              | .ok (ms, r5) => .ok ((combine key, v.kind) :: ms, r5)
            | '}' :: r4 => .ok ([(combine key, v.kind)], r4)
            | r => .error (syntaxErr r "after object key:value pair" true)
        | r => .error (syntaxErr r "after object key" true)
    | r => .error (syntaxErr r "looking for beginning of object key string" true)

/-- The elements of an array from its first element on. -/
def parseElements (pv : List Char → Except JsonError (Val × List Char)) :
    Nat → List Char → Except JsonError (List Char)
  | 0, _ => .error .outOfFuel
  | fuel + 1, cs =>
    match pv cs with
    | .error e => .error e
    | .ok (_, r1) =>
      match skipSpace r1 with
      | ',' :: r2 => parseElements pv fuel r2
      | ']' :: r2 => .ok r2
      | r => .error (syntaxErr r "after array element" true)

/-- One value, leading space included (`stateBeginValue`), inside `depth`
enclosing objects and arrays: the value and the input after it. -/
def parseValue : Nat → Nat → List Char → Except JsonError (Val × List Char)
  | 0, _, _ => .error .outOfFuel
  | fuel + 1, depth, cs =>
    match skipSpace cs with
    | [] => .error (syntaxErr [] "looking for beginning of value" true)
    | c :: rest =>
      if c == '{' then
        if depth + 1 > maxNestingDepth then
          .error (syntaxErr (c :: rest) "exceeded max depth" true)
        else match skipSpace rest with
          | '}' :: r => .ok (.object [], r)
          | _ =>
            match parseMembers (parseValue fuel (depth + 1)) fuel rest with
            | .error e => .error e
            | .ok (ms, r) => .ok (.object ms, r)
      else if c == '[' then
        if depth + 1 > maxNestingDepth then
          .error (syntaxErr (c :: rest) "exceeded max depth" true)
        else match skipSpace rest with
          | ']' :: r => .ok (.array, r)
          | _ =>
            match parseElements (parseValue fuel (depth + 1)) fuel rest with
            | .error e => .error e
            | .ok r => .ok (.array, r)
      else if c == '"' then
        match scanString .plain rest with
        | .error e => .error e
        | .ok (us, r) => .ok (.string (combine us), r)
      else if c == '-' then
        match scanNumber .neg rest with
        | .error e => .error e
        | .ok r => .ok (.number, r)
      else if c == '0' then
        match scanNumber .zero rest with
        | .error e => .error e
        | .ok r => .ok (.number, r)
      else if '1' ≤ c ∧ c ≤ '9' then
        match scanNumber .one rest with
        | .error e => .error e
        | .ok r => .ok (.number, r)
      else if c == 't' then
        match scanLiteral "true" ['r', 'u', 'e'] rest with
        | .error e => .error e
        | .ok r => .ok (.bool, r)
      else if c == 'f' then
        match scanLiteral "false" ['a', 'l', 's', 'e'] rest with
        | .error e => .error e
        | .ok r => .ok (.bool, r)
      else if c == 'n' then
        match scanLiteral "null" ['u', 'l', 'l'] rest with
        | .error e => .error e
        | .ok r => .ok (.null, r)
      else .error (syntaxErr (c :: rest) "looking for beginning of value" true)

/-- Function `checkValid` together with the reading of the value: one value,
then only space up to the end of the input. -/
def parse (cs : List Char) : Except JsonError Val :=
  match parseValue (cs.length + 1) 0 cs with
  | .error e => .error e
  | .ok (v, rest) =>
    match skipSpace rest with
    | [] => .ok v
    | r => .error (syntaxErr r "after top-level value" true)

/-- The Go struct `CoordinatesResult` declared in `getRoverCoordinates`. -/
structure CoordinatesResult where
  Result : String
  Error : String
  deriving DecidableEq, Repr

/-- The two fields of `CoordinatesResult`, by their JSON names. -/
inductive Field where
  | result | error
  deriving DecidableEq, Repr

def Field.name : Field → String
  | .result => "result"
  | .error => "error"

/-- Function `foldRune` as far as it can reach an ASCII letter: lower case to
upper case, and the two characters outside ASCII whose fold is a letter (the
long s and the Kelvin sign). -/
def foldChar (c : Char) : Char :=
  if 'a' ≤ c ∧ c ≤ 'z' then Char.ofNat (c.toNat - 32)
  else if c.toNat = 0x17F then 'S'
  else if c.toNat = 0x212A then 'K'
  else c

/-- The field an object key names: the exact name first, then the folded
name. -/
def lookupField (key : List Char) : Option Field :=
  if key = "result".data then some .result
  else if key = "error".data then some .error
  else if key.map foldChar = "RESULT".data then some .result
  else if key.map foldChar = "ERROR".data then some .error
  else none

/-- The decoder's state: the struct being filled and `savedError`. -/
structure DecodeState where
  out : CoordinatesResult
  savedError : Option JsonError

/-- Method `saveError`: only the first error is kept. -/
def DecodeState.saveError (d : DecodeState) (e : JsonError) : DecodeState :=
  match d.savedError with
  | none => { d with savedError := some e }
  | some _ => d

def DecodeState.set (d : DecodeState) (f : Field) (s : String) : DecodeState :=
  match f with
  | .result => { d with out := { d.out with Result := s } }
  | .error => { d with out := { d.out with Error := s } }

/-- Storing a value into a field of Go type `string`: a string is stored,
`null` leaves the field as it is, any other kind is an `UnmarshalTypeError`
that is saved while decoding goes on. -/
def storeField (d : DecodeState) (f : Field) (k : Kind) : DecodeState :=
  match k with
  | .string s => d.set f (String.mk s)
  | .null => d
  | .bool => d.saveError (.unmarshalTypeError "bool" (some f.name))
  | .number => d.saveError (.unmarshalTypeError "number" (some f.name))
  | .array => d.saveError (.unmarshalTypeError "array" (some f.name))
  | .object => d.saveError (.unmarshalTypeError "object" (some f.name))

/-- One member of the object: a key that names no field is skipped. -/
def storeMember (d : DecodeState) (m : List Char × Kind) : DecodeState :=
  match lookupField m.1 with
  | some f => storeField d f m.2
  | none => d

/-- Function `json.Unmarshal(data, &out)` for a zero `out` of type
`CoordinatesResult`: the input is checked as a whole first, then the value is
stored; the error is a syntax error or the first saved type error. -/
def unmarshal (data : String) : Except JsonError CoordinatesResult :=
  match parse data.data with
  | .error e => .error e
  | .ok (.object ms) =>
    let d := ms.foldl storeMember ⟨⟨"", ""⟩, none⟩
    match d.savedError with
    | some e => .error e
    | none => .ok d.out
  | .ok .null => .ok ⟨"", ""⟩
  | .ok .bool => .error (.unmarshalTypeError "bool" none)
  | .ok .number => .error (.unmarshalTypeError "number" none)
  | .ok .array => .error (.unmarshalTypeError "array" none)
  | .ok (.string _) => .error (.unmarshalTypeError "string" none)

/-- Method `Error` of the decoder's errors. -/
def JsonError.Error : JsonError → String
  | .syntaxError msg => msg
  | .unmarshalTypeError value none =>
    "json: cannot unmarshal " ++ value ++ " into Go value of type main.CoordinatesResult"
  | .unmarshalTypeError value (some field) =>
    "json: cannot unmarshal " ++ value ++ " into Go struct field CoordinatesResult."
      ++ field ++ " of type string"
  | .outOfFuel => "out of fuel"

end Json

/-! ## `main.go` -/

open Json in
/-- A non-nil Go `error` as `main.go` makes them: the `errorString` of
`fmt.Errorf` without `%w`, or the `wrapError` of `fmt.Errorf` with `%w`. -/
inductive GoError where
  | errorString (s : String)
  | wrapError (msg : String) (err : JsonError)
  deriving DecidableEq, Repr

/-- Method `Error`. -/
def GoError.Error : GoError → String
  | .errorString s => s
  | .wrapError msg _ => msg

/-- Function `fmt.Errorf(format)` with no operands. -/
def errorf0 (format : String) : GoError :=
  .errorString (Fmt.sprintf0 format)

/-- Function `fmt.Errorf("decoding in go from rust result: %w", err)`. -/
def errorfDecoding (err : Json.JsonError) : GoError :=
  .wrapError ("decoding in go from rust result: " ++ err.Error) err

/-- Type `externFunc`: the foreign function, which may read and change the
world `σ` outside the Go program. -/
abbrev externFunc (σ : Type) := String → String → σ → String × σ

/-- Function `getRoverCoordinates` (main.go, lines 14 to 30). -/
def getRoverCoordinates {σ : Type} (call : externFunc σ) (topRight instructions : String)
    (w : σ) : (String × Option GoError) × σ :=
  let res := call topRight instructions w
  match Json.unmarshal res.1 with
  | .error err => (("", some (errorfDecoding err)), res.2)
  | .ok out =>
    if out.Error ≠ "" then (("", some (errorf0 out.Error)), res.2)
    else ((out.Result, none), res.2)

/-- Function `resolveLibPath` (main.go, lines 32 to 45), `runtime.GOOS` and
`runtime.GOARCH` being its inputs. -/
def resolveLibPath (GOOS GOARCH : String) : String × Option GoError :=
  if GOOS = "linux" ∧ GOARCH = "amd64" then
    ("target/" ++ "x86_64-unknown-linux-gnu" ++ "/release/libc_rover.so", none)
  else if GOOS = "linux" ∧ GOARCH = "arm64" then
    ("target/" ++ "aarch64-unknown-linux-gnu" ++ "/release/libc_rover.so", none)
  else if GOOS = "darwin" ∧ GOARCH = "arm64" then
    ("target/" ++ "aarch64-apple-darwin" ++ "/release/libc_rover.so", none)
  else ("", some (errorf0 "unsupported platform"))

/-- The closure `get_rover_coordinates` of `main` (main.go, lines 70 to 87),
`extern_return_coordinates` being the variable it captures. -/
def get_rover_coordinates {σ : Type} (extern_return_coordinates : externFunc σ)
    (top_right instructions : String) (w : σ) : (String × Option GoError) × σ :=
  let res := extern_return_coordinates top_right instructions w
  match Json.unmarshal res.1 with
  | .error err => (("", some (errorfDecoding err)), res.2)
  | .ok out =>
    if out.Error ≠ "" then (("", some (errorf0 out.Error)), res.2)
    else ((out.Result, none), res.2)

/-- What `main` needs from outside: the platform, the loader (`purego.Dlopen`
gives a handle or an error text) and the symbol table
(`purego.RegisterLibFunc` panics on a symbol that is not there). -/
structure Env (σ : Type) where
  GOOS : String
  GOARCH : String
  Dlopen : String → Except String Nat
  RegisterLibFunc : Nat → String → Option (externFunc σ)

/-- What `main` does that can be seen: a line of the builtin `println`, the
builtin `println` of an error value, the exit of `log.Fatalf` with its
message, a panic, and the deferred `purego.Dlclose`. -/
inductive Output where
  | println (s : String)
  | printlnError (e : GoError)
  | fatalf (msg : String)
  | panic
  | dlclose (handle : Nat)
  deriving DecidableEq, Repr

def successLine : String := "Success! Received the output from rust. Final coordinates:"

/-- Function `main` (main.go, lines 47 to 94): what it prints, in order, and
the world it leaves. -/
def main {σ : Type} (env : Env σ) (w : σ) : List Output × σ :=
  let libPath := (resolveLibPath env.GOOS env.GOARCH).1
  match env.Dlopen libPath with
  | .error err => ([.fatalf ("failed to load library: " ++ err)], w)
  | .ok rustlib =>
    match env.RegisterLibFunc rustlib "extern_return_coordinates" with
    | none => ([.panic, .dlclose rustlib], w)
    | some extern_return_coordinates =>
      let top_right := "5 5"
      let instructions := "1 2 N\nLMLMLMLMM\n3 3 E\nMMRMMRMRRM"
      let before := [Output.println "Top right go input:", .println top_right,
        .println "Starting position and instructions go inputs:", .println instructions]
      let r := get_rover_coordinates extern_return_coordinates top_right instructions w
      let res := r.1.1
      let onErr := match r.1.2 with
        | some err => [Output.printlnError err]
        | none => []
      (before ++ onErr ++ [.println successLine, .println res, .dlclose rustlib], r.2)

/-! ## The rover engine behind `extern_return_coordinates`

The engine is a Rust library that is not part of the Go sources; it is
modelled here from its specification. -/

namespace Engine

/-- Modelled from the spec: the engine's `Heading`, one of four compass
directions (section 3). -/
inductive Heading where
  | N | E | S | W
  deriving DecidableEq, Repr

/-- Modelled from the spec: the engine's `turnLeft`, the cycle N, E, S, W
reversed (section 4.2). -/
def Heading.turnLeft : Heading → Heading
  | .N => .W
  | .W => .S
  | .S => .E
  | .E => .N

/-- Modelled from the spec: the engine's `turnRight`, along the cycle N, E, S,
W, N (section 4.2). -/
def Heading.turnRight : Heading → Heading
  | .N => .E
  | .E => .S
  | .S => .W
  | .W => .N

/-- Modelled from the spec: the engine's `delta`, the unit step of a forward
move (section 4.2). -/
def Heading.delta : Heading → Int × Int
  | .N => (0, 1)
  | .E => (1, 0)
  | .S => (0, -1)
  | .W => (-1, 0)

/-- Modelled from the spec: the engine's heading letter. -/
def Heading.letter : Heading → Char
  | .N => 'N'
  | .E => 'E'
  | .S => 'S'
  | .W => 'W'

/-- Modelled from the spec: the engine's `Rover`, a position and a heading
(section 3). -/
structure Rover where
  x : Int
  y : Int
  heading : Heading
  deriving DecidableEq, Repr

/-- Modelled from the spec: the engine's `Grid`, origin (0,0) and the parsed
top-right corner (section 3). -/
structure Grid where
  maxX : Int
  maxY : Int
  deriving DecidableEq, Repr

/-- Modelled from the spec: the engine's `contains`, true of the positions
with `0 ≤ x ≤ maxX` and `0 ≤ y ≤ maxY` (section 3). -/
def Grid.contains (g : Grid) (r : Rover) : Bool :=
  decide (0 ≤ r.x ∧ r.x ≤ g.maxX ∧ 0 ≤ r.y ∧ r.y ≤ g.maxY)

/-- Modelled from the spec: the engine's `Command`, one of L, R, M
(section 3). -/
inductive Command where
  | L | R | M
  deriving DecidableEq, Repr

/-- Modelled from the spec: the engine's `applyCommand`; L and R replace the
heading, M adds the heading's unit step, and no bounds check is made here
(section 4.3). -/
def Rover.applyCommand (r : Rover) : Command → Rover
  | .L => { r with heading := r.heading.turnLeft }
  | .R => { r with heading := r.heading.turnRight }
  | .M => { r with x := r.x + r.heading.delta.1, y := r.y + r.heading.delta.2 }

/-- Modelled from the spec: the engine's `RoverProgram`, a start state and its
commands in order (section 3). -/
structure RoverProgram where
  start : Rover
  commands : List Command
  deriving DecidableEq, Repr

/-- Modelled from the spec: the engine's `ParseError`, naming the offending
line and the reason (sections 4.1, 4.3, 4.4). The spec does not give the
wording of these errors. -/
inductive ParseError where
  | grid (line : List Char)
  | roverStart (line : List Char)
  | oddLineCount (line : List Char)
  | illegalCommand (c : Char) (line : List Char)
  deriving DecidableEq, Repr

/-- Modelled from the spec: the engine's text of a `ParseError`. -/
def ParseError.message : ParseError → String
  | .grid line => "Invalid grid bounds: " ++ String.mk line
  | .roverStart line => "Invalid rover start: " ++ String.mk line
  | .oddLineCount line => "Rover start without commands: " ++ String.mk line
  | .illegalCommand c line =>
    "Illegal command " ++ String.mk [c] ++ " in: " ++ String.mk line

/-- Modelled from the spec: the engine's white space between tokens. -/
def isWhite (c : Char) : Bool :=
  c == ' ' || c == '\t' || c == '\r' || c == '\n'

/-- Modelled from the spec: one step of the engine's tokenizer, from the
right: the token in progress and the tokens already complete. -/
def tokenStep (c : Char) (acc : List Char × List (List Char)) :
    List Char × List (List Char) :=
  if isWhite c then ([], if acc.1 = [] then acc.2 else acc.1 :: acc.2)
  else (c :: acc.1, acc.2)

/-- Modelled from the spec: the engine's tokens of a line, separated by white
space. -/
def tokens (cs : List Char) : List (List Char) :=
  let a := cs.foldr tokenStep ([], [])
  if a.1 = [] then a.2 else a.1 :: a.2

/-- Modelled from the spec: the engine's reading of digits, most significant
first, onto `acc`. -/
def digitsValue : Nat → List Char → Option Nat
  | acc, [] => some acc
  | acc, c :: cs =>
    if c.isDigit then digitsValue (acc * 10 + (c.toNat - '0'.toNat)) cs else none

/-- Modelled from the spec: the engine's integer token, decimal digits with an
optional minus sign. -/
def parseInt (cs : List Char) : Option Int :=
  match cs with
  | [] => none
  | '-' :: ds =>
    if ds = [] then none else (digitsValue 0 ds).map (fun n => - (n : Int))
  | ds => (digitsValue 0 ds).map (fun n => (n : Int))

/-- Modelled from the spec: the engine's Grid constructor, from the two-token
string `<maxX> <maxY>`; tokens missing, not integers or negative are a
`ParseError` (section 4.1). -/
def parseGrid (cs : List Char) : Except ParseError Grid :=
  match tokens cs with
  | [a, b] =>
    match parseInt a, parseInt b with
    | some x, some y => if 0 ≤ x ∧ 0 ≤ y then .ok ⟨x, y⟩ else .error (.grid cs)
    | _, _ => .error (.grid cs)
  | _ => .error (.grid cs)

/-- Modelled from the spec: the engine's heading from its letter. -/
def parseHeading (cs : List Char) : Option Heading :=
  if cs = ['N'] then some .N
  else if cs = ['E'] then some .E
  else if cs = ['S'] then some .S
  else if cs = ['W'] then some .W
  else none

/-- Modelled from the spec: the engine's Rover constructor, from the
three-token string `<x> <y> <heading-letter>` (section 4.3). -/
def parseRover (cs : List Char) : Except ParseError Rover :=
  match tokens cs with
  | [a, b, h] =>
    match parseInt a, parseInt b, parseHeading h with
    | some x, some y, some d => .ok ⟨x, y, d⟩
    | _, _, _ => .error (.roverStart cs)
  | _ => .error (.roverStart cs)

/-- Modelled from the spec: the engine's command from its letter, either
case (section 4.4). -/
def parseCommand (c : Char) : Option Command :=
  if c == 'L' || c == 'l' then some .L
  else if c == 'R' || c == 'r' then some .R
  else if c == 'M' || c == 'm' then some .M
  else none

/-- Modelled from the spec: the engine's commands line; a character outside
L, R, M is a `ParseError` (section 4.4). -/
def parseCommands (line : List Char) : List Char → Except ParseError (List Command)
  | [] => .ok []
  | c :: cs =>
    match parseCommand c with
    | none => .error (.illegalCommand c line)
    | some k =>
      match parseCommands line cs with
      | .error e => .error e
      | .ok ks => .ok (k :: ks)

/-- Modelled from the spec: one step of the engine's splitting into lines,
from the right. -/
def lineStep (c : Char) (acc : List Char × List (List Char)) :
    List Char × List (List Char) :=
  if c == '\n' then ([], acc.1 :: acc.2) else (c :: acc.1, acc.2)

/-- Modelled from the spec: the lines of the instruction block that are not
blank, in order (section 4.4). -/
def nonBlankLines (cs : List Char) : List (List Char) :=
  let a := cs.foldr lineStep ([], [])
  (a.1 :: a.2).filter (fun l => !l.all isWhite)

/-- Modelled from the spec: the engine's pairing of a start line with a
commands line (section 4.4). -/
def parsePairs : List (List Char) → Except ParseError (List RoverProgram)
  | [] => .ok []
  | [l] => .error (.oddLineCount l)
  | s :: c :: rest =>
    match parseRover s with
    | .error e => .error e
    | .ok start =>
      match parseCommands c c with
      | .error e => .error e
      | .ok cmds =>
        match parsePairs rest with
        | .error e => .error e
        | .ok ps => .ok (⟨start, cmds⟩ :: ps)

/-- Modelled from the spec: the engine's `InstructionParser` (section 4.4). -/
def parseInstructions (cs : List Char) : Except ParseError (List RoverProgram) :=
  parsePairs (nonBlankLines cs)

/-- Modelled from the spec: the engine running one rover's commands in order;
the candidate position of an M is committed when the grid contains it, and
otherwise the run stops with the heading held at that moment (section 4.5). -/
def runCommands (g : Grid) : Rover → List Command → Except Heading Rover
  | r, [] => .ok r
  | r, .M :: cs =>
    if g.contains (r.applyCommand .M) then runCommands g (r.applyCommand .M) cs
    else .error r.heading
  | r, c :: cs => runCommands g (r.applyCommand c) cs

/-- Modelled from the spec: the engine's `SimulationEngine`, rovers in input
order, the whole run aborted by the first bounds violation (section 4.5). -/
def simulate (g : Grid) : List RoverProgram → Except Heading (List Rover)
  | [] => .ok []
  | p :: ps =>
    match runCommands g p.start p.commands with
    | .error h => .error h
    | .ok r =>
      match simulate g ps with
      | .error h => .error h
      | .ok rs => .ok (r :: rs)

/-- Modelled from the spec: the engine's line for one rover,
`<x> <y> <heading>` (section 4.5). -/
def formatRover (r : Rover) : String :=
  toString r.x ++ " " ++ toString r.y ++ " " ++ String.mk [r.heading.letter]

/-- Modelled from the spec: the engine's result text, the rovers' lines
separated by single newlines, none at the end (section 4.5). -/
def formatResult (rs : List Rover) : String :=
  "\n".intercalate (rs.map formatRover)

/-- Modelled from the spec: the engine's text of a bounds violation
(section 6). -/
def boundsMessage (h : Heading) : String :=
  "Instruction tried to send Rover too far \"" ++ String.mk [h.letter] ++ "\""

/-- Modelled from the spec: the codec's escaping of one character of a JSON
string. -/
def encodeChar (c : Char) : List Char :=
  if c == '"' then ['\\', '"']
  else if c == '\\' then ['\\', '\\']
  else if c == '\n' then ['\\', 'n']
  else if c == '\r' then ['\\', 'r']
  else if c == '\t' then ['\\', 't']
  else if c.toNat = 8 then ['\\', 'b']
  else if c.toNat = 12 then ['\\', 'f']
  else if c.toNat < 0x20 then
    ['\\', 'u', '0', '0', Json.hexDigit (c.toNat / 16), Json.hexDigit (c.toNat % 16)]
  else [c]

/-- Modelled from the spec: the codec's JSON string literal of a text. -/
def encodeString (s : String) : List Char :=
  '"' :: (s.data.flatMap encodeChar ++ ['"'])

/-- Modelled from the spec: the engine's `ResultCodec`, the payload with the
two fields `result` and `error`, both always present (section 4.6). -/
def encodePayload (result error : String) : String :=
  String.mk ("\x7b\"result\":".data ++ encodeString result ++ ",\"error\":".data
    ++ encodeString error ++ "\x7d".data)

/-- Modelled from the spec: the engine's entry point; every failure is put
into the `error` field (sections 4.6 and 6). -/
def extern_return_coordinates (topRight instructions : String) : String :=
  match parseGrid topRight.data with
  | .error e => encodePayload "" e.message
  | .ok g =>
    match parseInstructions instructions.data with
    | .error e => encodePayload "" e.message
    | .ok progs =>
      match simulate g progs with
      | .error h => encodePayload "" (boundsMessage h)
      | .ok rs => encodePayload (formatResult rs) ""

/-- Modelled from the spec: the engine's entry point as the `externFunc` the
caller is given; the engine is a pure function and leaves the world as it
is (section 5). -/
def library {σ : Type} : externFunc σ :=
  fun topRight instructions w => (extern_return_coordinates topRight instructions, w)

end Engine

/-! ## Notions used to state the properties -/

/-- A foreign function that always answers with the same payload. -/
def constant {σ : Type} (payload : String) : externFunc σ :=
  fun _ _ w => (payload, w)

/-- A foreign function answering by `g` that writes every call it receives,
with its two arguments, to a log. -/
def logged (g : String → String → String) : externFunc (List (String × String)) :=
  fun topRight instructions log => (g topRight instructions, log ++ [(topRight, instructions)])

/-- The property "exactly one of result and error is populated" of a value
returned by `getRoverCoordinates`. -/
def ExactlyOne (r : String × Option GoError) : Prop :=
  (r.1 ≠ "" ∧ r.2 = none) ∨ (r.1 = "" ∧ r.2 ≠ none)

instance (r : String × Option GoError) : Decidable (ExactlyOne r) := by
  unfold ExactlyOne; infer_instance

namespace Json

/-- The piece the scanner reads back for a character written by
`Engine.encodeChar`: the code unit of a `\u` escape for a control character
that has no short escape, the character itself otherwise. -/
def unit (c : Char) : StrUnit :=
  if c == '"' ∨ c == '\\' ∨ c == '\n' ∨ c == '\r' ∨ c == '\t' ∨ c.toNat = 8 ∨ c.toNat = 12 then
    .chr c
  else if c.toNat < 0x20 then .u16 c.toNat else .chr c

/-- Prepending a piece to the outcome of scanning the rest of a literal. -/
def consUnit (u : StrUnit) : Except JsonError (List StrUnit × List Char) →
    Except JsonError (List StrUnit × List Char)
  | .error e => .error e
  | .ok (us, rest) => .ok (u :: us, rest)

/-- An outcome that is not the fuel running out and whose unread input is
shorter than `n`. -/
def Consumes {α : Type} (n : Nat) (res : Except JsonError (α × List Char)) : Prop :=
  res ≠ .error .outOfFuel ∧ ∀ v r, res = .ok (v, r) → r.length < n

/-- An outcome that is not the fuel running out and whose unread input is no
longer than `n`. -/
def Stops (n : Nat) (res : Except JsonError (List Char)) : Prop :=
  res ≠ .error .outOfFuel ∧ ∀ r, res = .ok r → r.length ≤ n

end Json

namespace Engine

/-- The state of a rover after a sequence of commands when no bounds are
checked: `applyCommand` in order. -/
def exec (r : Rover) (cmds : List Command) : Rover :=
  cmds.foldl Rover.applyCommand r

/-- Command number `j` (from 0) of `cmds` is an M that would take the rover,
started at `r`, outside the grid. -/
def LeavesGridAt (g : Grid) (r : Rover) (cmds : List Command) (j : Nat) : Prop :=
  cmds[j]? = some .M ∧ g.contains (exec r (cmds.take (j + 1))) = false

instance (g : Grid) (r : Rover) (cmds : List Command) (j : Nat) :
    Decidable (LeavesGridAt g r cmds j) := by
  unfold LeavesGridAt; infer_instance

/-- No M command of the program leaves the grid. -/
def Safe (g : Grid) (p : RoverProgram) : Prop :=
  ∀ j, j < p.commands.length → ¬ LeavesGridAt g p.start p.commands j

instance (g : Grid) (p : RoverProgram) : Decidable (Safe g p) := by
  unfold Safe; infer_instance

/-- The first violating move of a run: it is command `j` of program `p`,
which is number `i` of the run; the programs before it are safe and so are
the commands of `p` before `j`. -/
def FirstViolation (g : Grid) (progs : List RoverProgram) (i : Nat) (p : RoverProgram)
    (j : Nat) : Prop :=
  progs[i]? = some p ∧ (∀ q ∈ progs.take i, Safe g q) ∧
    (∀ j', j' < j → ¬ LeavesGridAt g p.start p.commands j') ∧
    LeavesGridAt g p.start p.commands j

instance (g : Grid) (progs : List RoverProgram) (i : Nat) (p : RoverProgram) (j : Nat) :
    Decidable (FirstViolation g progs i p j) := by
  unfold FirstViolation; infer_instance

end Engine

/-! ## `fmt`: the fuel of the format loop is enough -/

namespace Fmt

theorem skipFlags_length (cs : List Char) : (skipFlags cs).length ≤ cs.length := by
  induction cs with
  | nil => simp [skipFlags]
  | cons c cs ih =>
    rw [skipFlags]
    split_ifs
    · simp only [List.length_cons]; omega
    · exact le_refl _

theorem parsenumLoop_length (cs : List Char) (num : Nat) (isnum : Bool) (m : Nat) (b : Bool)
    (r : List Char) (h : parsenumLoop num isnum cs = some (m, b, r)) :
    r.length ≤ cs.length := by
  induction cs generalizing num isnum with
  | nil =>
    rw [parsenumLoop] at h
    simp only [Option.some.injEq, Prod.mk.injEq] at h
    rw [← h.2.2]
  | cons c cs ih =>
    rw [parsenumLoop] at h
    split_ifs at h with h1 h2
    · have := ih _ _ h
      simp only [List.length_cons]; omega
    · simp only [Option.some.injEq, Prod.mk.injEq] at h
      rw [← h.2.2]

theorem parsenum_length (cs : List Char) : (parsenum cs).2.length ≤ cs.length := by
  unfold parsenum
  cases h : parsenumLoop 0 false cs with
  | none => simp
  | some t =>
    obtain ⟨m, b, r⟩ := t
    exact parsenumLoop_length cs _ _ _ _ _ h

theorem splitAtClose_length (cs inner after : List Char)
    (h : splitAtClose cs = some (inner, after)) : after.length < cs.length := by
  induction cs generalizing inner with
  | nil => simp [splitAtClose] at h
  | cons c cs ih =>
    rw [splitAtClose] at h
    split_ifs at h with h1
    · simp only [Option.some.injEq, Prod.mk.injEq] at h
      rw [← h.2]; simp
    · cases h2 : splitAtClose cs with
      | none => simp [h2] at h
      | some t =>
        obtain ⟨i2, a2⟩ := t
        simp only [h2, Option.some.injEq, Prod.mk.injEq] at h
        have := ih i2 (h.2 ▸ h2)
        simp only [List.length_cons]; omega

theorem argNumber_length (cs : List Char) : (argNumber cs).1.length ≤ cs.length := by
  unfold argNumber
  split
  · rename_i tl
    split_ifs
    · simp
    · cases h2 : splitAtClose tl with
      | none => simp
      | some t =>
        obtain ⟨inner, after⟩ := t
        have := splitAtClose_length _ _ _ h2
        simp only
        split <;> simp only [List.length_cons] <;> omega
  · exact le_refl _

theorem width_length (cs : List Char) (a g : Bool) : (width cs a g).2.1.length ≤ cs.length := by
  unfold width
  split
  · simp
  · exact parsenum_length cs

theorem precision_length (cs : List Char) (a g : Bool) :
    (precision cs a g).2.1.length ≤ cs.length := by
  unfold precision
  split
  · rename_i tl
    have h1 := argNumber_length tl
    simp only
    split
    · rename_i tl2 heq
      rw [heq] at h1
      simp only [List.length_cons] at h1 ⊢; omega
    · have := parsenum_length (argNumber tl).1
      simp only [List.length_cons]; omega
  · exact le_refl _

theorem verbText_length (cs : List Char) (g : Bool) : (verbText cs g).2.length ≤ cs.length := by
  unfold verbText
  split
  · simp
  · split_ifs <;> simp

theorem directive_length (cs : List Char) : (directive cs).2.length ≤ cs.length := by
  unfold directive
  simp only
  have h1 := skipFlags_length cs
  have h2 := argNumber_length (skipFlags cs)
  have h3 := width_length (argNumber (skipFlags cs)).1 (argNumber (skipFlags cs)).2.1
    (!(argNumber (skipFlags cs)).2.2)
  generalize width (argNumber (skipFlags cs)).1 (argNumber (skipFlags cs)).2.1
    (!(argNumber (skipFlags cs)).2.2) = w at h3 ⊢
  have h4 := precision_length w.2.1 w.2.2.1 w.2.2.2
  generalize precision w.2.1 w.2.2.1 w.2.2.2 = p at h4 ⊢
  have h5 := argNumber_length p.2.1
  have h6 := fun l b => verbText_length l b
  split_ifs
  · exact le_trans (h6 _ _) (by simp only; omega)
  · exact le_trans (h6 _ _) (by omega)

theorem doPrintf_fuel (n : Nat) : ∀ (m : Nat) (cs : List Char), cs.length ≤ n → cs.length ≤ m →
    doPrintf n cs = doPrintf m cs := by
  induction n with
  | zero =>
    intro m cs h _
    have : cs = [] := List.length_eq_zero.mp (by omega)
    subst this
    cases m <;> rfl
  | succ n ih =>
    intro m cs h hm
    cases cs with
    | nil => cases m <;> rfl
    | cons c cs =>
      cases m with
      | zero => simp at hm
      | succ m =>
        simp only [List.length_cons] at h hm
        rw [doPrintf, doPrintf]
        have := directive_length cs
        split_ifs
        · simp only
          rw [ih m _ (by omega) (by omega)]
        · rw [ih m _ (by omega) (by omega)]

theorem doPrintf_no_percent (cs : List Char) (h : '%' ∉ cs) :
    ∀ n, cs.length ≤ n → doPrintf n cs = cs := by
  induction cs with
  | nil => intro n _; cases n <;> rfl
  | cons c cs ih =>
    intro n hn
    cases n with
    | zero => simp at hn
    | succ n =>
      have hc : c ≠ '%' := fun k => h (by rw [k]; exact List.mem_cons_self _ _)
      have hcs : '%' ∉ cs := fun k => h (List.mem_cons_of_mem _ k)
      rw [doPrintf, if_neg (by simpa using hc), ih hcs n (by simpa using hn)]

/-- A format without a percent sign is written out as it is. -/
theorem sprintf0_no_percent (format : String) (h : '%' ∉ format.data) :
    sprintf0 format = format := by
  rw [sprintf0, doPrintf_no_percent _ h _ (le_refl _)]

theorem sprintf0_fuel (format : String) (extra : Nat) :
    String.mk (doPrintf (format.data.length + extra) format.data) = sprintf0 format := by
  rw [sprintf0, doPrintf_fuel _ format.data.length _ (by omega) (le_refl _)]

end Fmt

/-! ## `encoding/json`: the fuel of the parser is enough -/

namespace Json

theorem syntaxErr_ne (cs : List Char) (ctx : String) (b : Bool) :
    syntaxErr cs ctx b ≠ .outOfFuel := by
  unfold syntaxErr
  split
  · split_ifs <;> simp
  · simp

theorem skipSpace_length (cs : List Char) : (skipSpace cs).length ≤ cs.length := by
  induction cs with
  | nil => simp [skipSpace]
  | cons c cs ih =>
    rw [skipSpace]
    split_ifs
    · simp only [List.length_cons]; omega
    · exact le_refl _

theorem Consumes.of_error {α : Type} (n : Nat) (e : JsonError) (h : e ≠ .outOfFuel) :
    Consumes (α := α) n (.error e) :=
  ⟨fun k => h (by injection k), fun _ _ k => by cases k⟩

theorem Consumes.of_ok {α : Type} (n : Nat) (v : α) (r : List Char) (h : r.length < n) :
    Consumes n (.ok (v, r)) :=
  ⟨fun k => (by cases k), fun v' r' k => (by cases k; exact h)⟩

theorem Consumes.weaken {α : Type} {n m : Nat} {res : Except JsonError (α × List Char)}
    (h : Consumes n res) (hnm : n ≤ m) : Consumes m res :=
  ⟨h.1, fun v r k => lt_of_lt_of_le (h.2 v r k) hnm⟩

theorem Consumes.of_cases {α β : Type} {n : Nat} (res : Except JsonError (α × List Char))
    (h : Consumes n res) (out : Except JsonError (β × List Char))
    (he : ∀ e, res = .error e → out = .error e)
    (ho : ∀ v r, res = .ok (v, r) → ∃ w, out = .ok (w, r)) : Consumes n out := by
  cases hres : res with
  | error e =>
    rw [he e hres]
    exact Consumes.of_error n e (fun k => h.1 (by rw [hres, k]))
  | ok p =>
    obtain ⟨v, r⟩ := p
    obtain ⟨w, hw⟩ := ho v r hres
    rw [hw]
    exact Consumes.of_ok n _ r (h.2 v r hres)

theorem scanString_consumes (cs : List Char) :
    ∀ st, Consumes (cs.length + 1) (scanString st cs) ∧
      (st = .plain → Consumes cs.length (scanString st cs)) := by
  induction cs with
  | nil =>
    intro st
    cases st <;> exact ⟨Consumes.of_error _ _ (syntaxErr_ne _ _ _),
      fun _ => Consumes.of_error _ _ (syntaxErr_ne _ _ _)⟩
  | cons c cs ih =>
    have ihw : ∀ st, Consumes (cs.length + 1) (scanString st cs) := fun st => (ih st).1
    have key : ∀ st, Consumes (c :: cs).length (scanString st (c :: cs)) := by
      intro st
      simp only [List.length_cons]
      cases st with
      | plain =>
        rw [scanString]
        split_ifs
        · exact Consumes.of_ok _ _ _ (by omega)
        · exact ihw _
        · exact Consumes.of_error _ _ (syntaxErr_ne _ _ _)
        · refine Consumes.of_cases _ (ihw .plain) _ (fun e h => by rw [h]) (fun v r h => by rw [h]; exact ⟨_, rfl⟩)
      | esc =>
        rw [scanString]
        split
        · refine Consumes.of_cases _ (ihw .plain) _ (fun e h => by rw [h]) (fun v r h => by rw [h]; exact ⟨_, rfl⟩)
        · split_ifs
          · exact ihw _
          · exact Consumes.of_error _ _ (syntaxErr_ne _ _ _)
      | hex k acc =>
        rw [scanString]
        split
        · exact Consumes.of_error _ _ (syntaxErr_ne _ _ _)
        · split_ifs
          · exact ihw _
          · refine Consumes.of_cases _ (ihw .plain) _ (fun e h => by rw [h]) (fun v r h => by rw [h]; exact ⟨_, rfl⟩)
    intro st
    exact ⟨(key st).weaken (by simp), fun _ => key st⟩


theorem Stops.stops_error (n : Nat) (e : JsonError) (h : e ≠ .outOfFuel) : Stops n (.error e) :=
  ⟨fun k => h (by injection k), fun _ k => (by cases k)⟩

theorem Stops.stops_ok (n : Nat) (r : List Char) (h : r.length ≤ n) : Stops n (.ok r) :=
  ⟨fun k => (by cases k), fun r' k => (by cases k; exact h)⟩

theorem Stops.relax {n m : Nat} {res : Except JsonError (List Char)} (h : Stops n res)
    (hnm : n ≤ m) : Stops m res :=
  ⟨h.1, fun r k => le_trans (h.2 r k) hnm⟩

theorem scanNumber_stops (cs : List Char) : ∀ st, Stops cs.length (scanNumber st cs) := by
  induction cs with
  | nil =>
    intro st
    cases st <;> first
      | exact Stops.stops_error _ _ (syntaxErr_ne _ _ _)
      | exact Stops.stops_ok _ _ (le_refl _)
  | cons c cs ih =>
    have ihw : ∀ st, Stops (c :: cs).length (scanNumber st cs) :=
      fun st => (ih st).relax (by simp)
    intro st
    cases st <;> rw [scanNumber] <;> split_ifs <;> first
      | exact ihw _
      | exact Stops.stops_error _ _ (syntaxErr_ne _ _ _)
      | exact Stops.stops_ok _ _ (le_refl _)

theorem scanLiteral_stops (name : String) (xs : List Char) :
    ∀ cs, Stops cs.length (scanLiteral name xs cs) := by
  induction xs with
  | nil => intro cs; exact Stops.stops_ok _ _ (le_refl _)
  | cons x xs ih =>
    intro cs
    cases cs with
    | nil => exact Stops.stops_error _ _ (syntaxErr_ne _ _ _)
    | cons c cs =>
      rw [scanLiteral]
      split_ifs
      · exact (ih cs).relax (by simp)
      · exact Stops.stops_error _ _ (syntaxErr_ne _ _ _)

theorem Stops.consumes {α : Type} {n : Nat} (res : Except JsonError (List Char))
    (h : Stops n res) (out : Except JsonError (α × List Char))
    (he : ∀ e, res = .error e → out = .error e)
    (ho : ∀ r, res = .ok r → ∃ w, out = .ok (w, r)) : Consumes (n + 1) out := by
  cases hres : res with
  | error e =>
    rw [he e hres]
    exact Consumes.of_error _ e (fun k => h.1 (by rw [hres, k]))
  | ok r =>
    obtain ⟨w, hw⟩ := ho r hres
    rw [hw]
    exact Consumes.of_ok _ _ r (Nat.lt_succ_of_le (h.2 r hres))

theorem parseMembers_consumes (pv : List Char → Except JsonError (Val × List Char)) (n : Nat) :
    ∀ cs : List Char, (∀ cs' : List Char, cs'.length ≤ cs.length → Consumes cs'.length (pv cs')) →
      cs.length < n → Consumes cs.length (parseMembers pv n cs) := by
  induction n with
  | zero => intro cs _ h; omega
  | succ n ih =>
    intro cs hpv hn
    rw [parseMembers]
    have hs := skipSpace_length cs
    split
    · rename_i r0 h0
      rw [h0] at hs
      simp only [List.length_cons] at hs
      have hk := (scanString_consumes r0 .plain).2 rfl
      split
      · rename_i e he
        exact Consumes.of_error _ _ (fun k => hk.1 (by rw [he, k]))
      · rename_i key r1 h1
        have hr1 := hk.2 _ _ h1
        have hs1 := skipSpace_length r1
        split
        · rename_i r2 h2
          rw [h2] at hs1
          simp only [List.length_cons] at hs1
          have hv := hpv r2 (by omega)
          split
          · rename_i e he
            exact Consumes.of_error _ _ (fun k => hv.1 (by rw [he, k]))
          · rename_i v r3 h3
            have hr3 := hv.2 _ _ h3
            have hs3 := skipSpace_length r3
            split
            · rename_i r4 h4
              rw [h4] at hs3
              simp only [List.length_cons] at hs3
              have hrec := ih r4 (fun cs' hc => hpv cs' (by omega)) (by omega)
              exact (Consumes.of_cases _ hrec _ (fun e h => by rw [h])
                (fun v r h => by rw [h]; exact ⟨_, rfl⟩)).weaken (by omega)
            · rename_i r4 h4
              rw [h4] at hs3
              simp only [List.length_cons] at hs3
              exact Consumes.of_ok _ _ _ (by omega)
            · exact Consumes.of_error _ _ (syntaxErr_ne _ _ _)
        · exact Consumes.of_error _ _ (syntaxErr_ne _ _ _)
    · exact Consumes.of_error _ _ (syntaxErr_ne _ _ _)

theorem parseElements_stops (pv : List Char → Except JsonError (Val × List Char)) (n : Nat) :
    ∀ cs : List Char, (∀ cs' : List Char, cs'.length ≤ cs.length → Consumes cs'.length (pv cs')) →
      cs.length < n → Stops cs.length (parseElements pv n cs) := by
  induction n with
  | zero => intro cs _ h; omega
  | succ n ih =>
    intro cs hpv hn
    rw [parseElements]
    have hv := hpv cs (le_refl _)
    split
    · rename_i e he
      exact Stops.stops_error _ _ (fun k => hv.1 (by rw [he, k]))
    · rename_i v r1 h1
      have hr1 := hv.2 _ _ h1
      have hs1 := skipSpace_length r1
      split
      · rename_i r2 h2
        rw [h2] at hs1
        simp only [List.length_cons] at hs1
        exact (ih r2 (fun cs' hc => hpv cs' (by omega)) (by omega)).relax (by omega)
      · rename_i r2 h2
        rw [h2] at hs1
        simp only [List.length_cons] at hs1
        exact Stops.stops_ok _ _ (by omega)
      · exact Stops.stops_error _ _ (syntaxErr_ne _ _ _)


theorem parseValue_consumes (fuel : Nat) :
    ∀ (depth : Nat) (cs : List Char), cs.length < fuel →
      Consumes cs.length (parseValue fuel depth cs) := by
  induction fuel with
  | zero => intro _ cs h; omega
  | succ fuel ih =>
    intro depth cs hn
    rw [parseValue]
    have hs := skipSpace_length cs
    split
    · exact Consumes.of_error _ _ (syntaxErr_ne _ _ _)
    · rename_i c rest h0
      rw [h0] at hs
      simp only [List.length_cons] at hs
      have hrest := skipSpace_length rest
      have hpv : ∀ cs' : List Char, cs'.length ≤ rest.length →
          Consumes cs'.length (parseValue fuel (depth + 1) cs') :=
        fun cs' hc => ih _ cs' (by omega)
      split_ifs
      · exact Consumes.of_error _ _ (syntaxErr_ne _ _ _)
      · split
        · rename_i r h1
          rw [h1] at hrest
          simp only [List.length_cons] at hrest
          exact Consumes.of_ok _ _ _ (by omega)
        · exact (Consumes.of_cases _ (parseMembers_consumes _ fuel rest hpv (by omega)) _
            (fun e h => by rw [h]) (fun v r h => by rw [h]; exact ⟨_, rfl⟩)).weaken (by omega)
      · exact Consumes.of_error _ _ (syntaxErr_ne _ _ _)
      · split
        · rename_i r h1
          rw [h1] at hrest
          simp only [List.length_cons] at hrest
          exact Consumes.of_ok _ _ _ (by omega)
        · exact (Stops.consumes _ (parseElements_stops _ fuel rest hpv (by omega)) _
            (fun e h => by rw [h]) (fun r h => by rw [h]; exact ⟨_, rfl⟩)).weaken (by omega)
      · exact (Consumes.of_cases _ ((scanString_consumes rest .plain).2 rfl) _
          (fun e h => by rw [h]) (fun v r h => by rw [h]; exact ⟨_, rfl⟩)).weaken (by omega)
      · exact (Stops.consumes _ (scanNumber_stops rest _) _
          (fun e h => by rw [h]) (fun r h => by rw [h]; exact ⟨_, rfl⟩)).weaken (by omega)
      · exact (Stops.consumes _ (scanNumber_stops rest _) _
          (fun e h => by rw [h]) (fun r h => by rw [h]; exact ⟨_, rfl⟩)).weaken (by omega)
      · exact (Stops.consumes _ (scanNumber_stops rest _) _
          (fun e h => by rw [h]) (fun r h => by rw [h]; exact ⟨_, rfl⟩)).weaken (by omega)
      · exact (Stops.consumes _ (scanLiteral_stops _ _ rest) _
          (fun e h => by rw [h]) (fun r h => by rw [h]; exact ⟨_, rfl⟩)).weaken (by omega)
      · exact (Stops.consumes _ (scanLiteral_stops _ _ rest) _
          (fun e h => by rw [h]) (fun r h => by rw [h]; exact ⟨_, rfl⟩)).weaken (by omega)
      · exact (Stops.consumes _ (scanLiteral_stops _ _ rest) _
          (fun e h => by rw [h]) (fun r h => by rw [h]; exact ⟨_, rfl⟩)).weaken (by omega)
      · exact Consumes.of_error _ _ (syntaxErr_ne _ _ _)

theorem parse_ne_outOfFuel (cs : List Char) : parse cs ≠ .error .outOfFuel := by
  rw [parse]
  have h := parseValue_consumes (cs.length + 1) 0 cs (by omega)
  split
  · rename_i e he
    exact fun k => h.1 (by rw [he]; injection k with k; rw [k])
  · split
    · exact fun k => (by cases k)
    · exact fun k => syntaxErr_ne _ _ _ (by injection k)

theorem saveError_ne (d : DecodeState) (e : JsonError) (he : e ≠ .outOfFuel)
    (h : d.savedError ≠ some .outOfFuel) : (d.saveError e).savedError ≠ some .outOfFuel := by
  unfold DecodeState.saveError
  split
  · simpa using he
  · exact h

theorem storeMember_ne (d : DecodeState) (m : List Char × Kind)
    (h : d.savedError ≠ some .outOfFuel) : (storeMember d m).savedError ≠ some .outOfFuel := by
  unfold storeMember
  split
  · rename_i f _
    unfold storeField
    split
    · cases f <;> exact h
    · exact h
    all_goals exact saveError_ne _ _ (by simp) h
  · exact h

theorem foldl_storeMember_ne (ms : List (List Char × Kind)) (d : DecodeState)
    (h : d.savedError ≠ some .outOfFuel) :
    (ms.foldl storeMember d).savedError ≠ some .outOfFuel := by
  induction ms generalizing d with
  | nil => exact h
  | cons m ms ih => exact ih _ (storeMember_ne d m h)

theorem unmarshal_ne_outOfFuel (data : String) : unmarshal data ≠ .error .outOfFuel := by
  rw [unmarshal]
  have h := parse_ne_outOfFuel data.data
  split
  · rename_i e he
    exact fun k => h (by rw [he]; injection k with k; rw [k])
  · rename_i ms he
    have hm := foldl_storeMember_ne ms ⟨⟨"", ""⟩, none⟩ (by simp)
    simp only
    split
    · rename_i e hs
      exact fun k => hm (by rw [hs]; injection k with k; rw [k])
    · simp
  all_goals simp

end Json

/-! ## The payload of the engine is read back by `json.Unmarshal` -/

section Roundtrip

open Json Engine

theorem scanString_quote (cs : List Char) : scanString .plain ('"' :: cs) = .ok ([], cs) := by
  rw [scanString]; simp

theorem scanString_backslash (cs : List Char) :
    scanString .plain ('\\' :: cs) = scanString .esc cs := by
  rw [scanString]; simp

theorem scanString_plain (c : Char) (cs : List Char) (h1 : c ≠ '"') (h2 : c ≠ '\\')
    (h3 : 0x20 ≤ c.toNat) :
    scanString .plain (c :: cs) = consUnit (.chr c) (scanString .plain cs) := by
  rw [scanString]
  have h3' : ¬ c.toNat < 0x20 := by omega
  simp only [beq_iff_eq, h1, h2, h3', if_false]
  cases scanString .plain cs <;> rfl

theorem scanString_esc (c d : Char) (cs : List Char) (h : unescape c = some d) :
    scanString .esc (c :: cs) = consUnit (.chr d) (scanString .plain cs) := by
  rw [scanString]
  simp only [h]
  cases scanString .plain cs <;> rfl

theorem scanString_esc_u (cs : List Char) :
    scanString .esc ('u' :: cs) = scanString (.hex 0 0) cs := by
  rw [scanString]
  have : unescape 'u' = none := by decide
  simp [this]

theorem scanString_hex (k acc v : Nat) (c : Char) (cs : List Char) (h : hexVal c = some v)
    (hk : k < 3) :
    scanString (.hex k acc) (c :: cs) = scanString (.hex (k + 1) (acc * 16 + v)) cs := by
  rw [scanString]
  simp [h, hk]

theorem scanString_hex_last (acc v : Nat) (c : Char) (cs : List Char) (h : hexVal c = some v) :
    scanString (.hex 3 acc) (c :: cs) = consUnit (.u16 (acc * 16 + v)) (scanString .plain cs) := by
  rw [scanString]
  simp only [h]
  simp
  cases scanString .plain cs <;> rfl

theorem hexVal_hexDigit (k : Nat) (h : k < 16) : hexVal (hexDigit k) = some k := by
  interval_cases k <;> decide




theorem scan_encodeChar (c : Char) (tail : List Char) :
    scanString .plain (encodeChar c ++ tail) = consUnit (unit c) (scanString .plain tail) := by
  by_cases h1 : c = '"'
  · subst h1
    rw [show encodeChar '"' = ['\\', '"'] by decide, show unit '"' = .chr '"' by decide]
    exact (scanString_backslash _).trans (scanString_esc _ '"' _ (by decide))
  by_cases h2 : c = '\\'
  · subst h2
    rw [show encodeChar '\\' = ['\\', '\\'] by decide, show unit '\\' = .chr '\\' by decide]
    exact (scanString_backslash _).trans (scanString_esc _ '\\' _ (by decide))
  by_cases h3 : c = '\n'
  · subst h3
    rw [show encodeChar '\n' = ['\\', 'n'] by decide, show unit '\n' = .chr '\n' by decide]
    exact (scanString_backslash _).trans (scanString_esc _ '\n' _ (by decide))
  by_cases h4 : c = '\r'
  · subst h4
    rw [show encodeChar '\r' = ['\\', 'r'] by decide, show unit '\r' = .chr '\r' by decide]
    exact (scanString_backslash _).trans (scanString_esc _ '\r' _ (by decide))
  by_cases h5 : c = '\t'
  · subst h5
    rw [show encodeChar '\t' = ['\\', 't'] by decide, show unit '\t' = .chr '\t' by decide]
    exact (scanString_backslash _).trans (scanString_esc _ '\t' _ (by decide))
  by_cases h6 : c.toNat = 8
  · have hc : c = Char.ofNat 8 := by rw [← h6, Char.ofNat_toNat]
    subst hc
    rw [show encodeChar (Char.ofNat 8) = ['\\', 'b'] by decide,
      show unit (Char.ofNat 8) = .chr (Char.ofNat 8) by decide]
    exact (scanString_backslash _).trans (scanString_esc _ (Char.ofNat 8) _ (by decide))
  by_cases h7 : c.toNat = 12
  · have hc : c = Char.ofNat 12 := by rw [← h7, Char.ofNat_toNat]
    subst hc
    rw [show encodeChar (Char.ofNat 12) = ['\\', 'f'] by decide,
      show unit (Char.ofNat 12) = .chr (Char.ofNat 12) by decide]
    exact (scanString_backslash _).trans (scanString_esc _ (Char.ofNat 12) _ (by decide))
  by_cases h8 : c.toNat < 0x20
  · have he : encodeChar c
        = ['\\', 'u', '0', '0', hexDigit (c.toNat / 16), hexDigit (c.toNat % 16)] := by
      simp [encodeChar, h1, h2, h3, h4, h5, h6, h7, h8]
    have hu : unit c = .u16 c.toNat := by
      simp [unit, h1, h2, h3, h4, h5, h6, h7, h8]
    rw [he, hu]
    simp only [List.cons_append, List.nil_append]
    rw [scanString_backslash, scanString_esc_u,
      scanString_hex 0 0 0 '0' _ (by decide) (by decide),
      scanString_hex 1 _ 0 '0' _ (by decide) (by decide),
      scanString_hex 2 _ (c.toNat / 16) _ _ (hexVal_hexDigit _ (by omega)) (by decide),
      scanString_hex_last _ (c.toNat % 16) _ _ (hexVal_hexDigit _ (Nat.mod_lt _ (by decide)))]
    congr 2
    omega
  · have he : encodeChar c = [c] := by
      simp [encodeChar, h1, h2, h3, h4, h5, h6, h7, h8]
    have hu : unit c = .chr c := by
      simp [unit, h1, h2, h3, h4, h5, h6, h7, h8]
    rw [he, hu]
    exact scanString_plain c tail h1 h2 (by omega)

theorem scanString_encode (cs : List Char) (rest : List Char) :
    scanString .plain (cs.flatMap encodeChar ++ '"' :: rest) = .ok (cs.map unit, rest) := by
  induction cs with
  | nil => exact scanString_quote rest
  | cons c cs ih =>
    rw [List.flatMap_cons, List.append_assoc, scan_encodeChar, ih]
    rfl

theorem combine_u16 (n : Nat) (us : List StrUnit) (h : n < 0x20) :
    combine (.u16 n :: us) = Char.ofNat n :: combine us := by
  have hs : isSurrogate n = false := by
    simp only [isSurrogate, decide_eq_false_iff_not]; omega
  cases us with
  | nil => simp [combine, hs]
  | cons u us =>
    cases u with
    | chr c => simp [combine, hs]
    | u16 lo =>
      rw [combine]
      rw [if_neg (by omega)]
      simp [hs]

theorem unit_cases (c : Char) :
    unit c = .chr c ∨ (unit c = .u16 c.toNat ∧ c.toNat < 0x20) := by
  unfold unit
  split_ifs with h1 h2
  · exact Or.inl rfl
  · exact Or.inr ⟨rfl, h2⟩
  · exact Or.inl rfl

theorem combine_unit (cs : List Char) : combine (cs.map unit) = cs := by
  induction cs with
  | nil => rfl
  | cons c cs ih =>
    rw [List.map_cons]
    rcases unit_cases c with h | ⟨h, hlt⟩
    · rw [h, combine, ih]
    · rw [h, combine_u16 _ _ hlt, ih, Char.ofNat_toNat]

/-- The characters of the payload made by `encodePayload`. -/
theorem encodePayload_data (r e : String) :
    (encodePayload r e).data
      = '{' :: '"' :: 'r' :: 'e' :: 's' :: 'u' :: 'l' :: 't' :: '"' :: ':' :: '"' ::
        (r.data.flatMap encodeChar ++ '"' :: ',' :: '"' :: 'e' :: 'r' :: 'r' :: 'o' :: 'r'
          :: '"' :: ':' :: '"' :: (e.data.flatMap encodeChar ++ ['"', '}'])) := by
  simp [encodePayload, encodeString]

theorem skipSpace_of_not_space (c : Char) (cs : List Char) (h : isSpace c = false) :
    skipSpace (c :: cs) = c :: cs := by
  rw [skipSpace, h]; rfl

theorem parseValue_string (fuel depth : Nat) (cs rest : List Char) :
    parseValue (fuel + 1) depth ('"' :: (cs.flatMap encodeChar ++ '"' :: rest))
      = .ok (.string cs, rest) := by
  rw [parseValue, skipSpace_of_not_space _ _ (by decide)]
  simp only
  rw [if_neg (by decide), if_neg (by decide), if_pos (by decide), scanString_encode]
  simp only [combine_unit]

theorem scanString_key_result (rest : List Char) :
    scanString .plain ('r' :: 'e' :: 's' :: 'u' :: 'l' :: 't' :: '"' :: rest)
      = .ok ("result".data.map StrUnit.chr, rest) := by
  have := scanString_encode "result".data rest
  simpa [encodeChar, unit] using this

theorem scanString_key_error (rest : List Char) :
    scanString .plain ('e' :: 'r' :: 'r' :: 'o' :: 'r' :: '"' :: rest)
      = .ok ("error".data.map StrUnit.chr, rest) := by
  have := scanString_encode "error".data rest
  simpa [encodeChar, unit] using this

theorem parseMembers_payload (pv : List Char → Except JsonError (Val × List Char))
    (hpv : ∀ cs rest, pv ('"' :: (cs.flatMap encodeChar ++ '"' :: rest)) = .ok (.string cs, rest))
    (n : Nat) (r e : List Char) :
    parseMembers pv (n + 2)
        ('"' :: 'r' :: 'e' :: 's' :: 'u' :: 'l' :: 't' :: '"' :: ':' :: '"' ::
          (r.flatMap encodeChar ++ '"' :: ',' :: '"' :: 'e' :: 'r' :: 'r' :: 'o' :: 'r'
            :: '"' :: ':' :: '"' :: (e.flatMap encodeChar ++ ['"', '}'])))
      = .ok ([("result".data, .string r), ("error".data, .string e)], []) := by
  rw [parseMembers, skipSpace_of_not_space _ _ (by decide)]
  simp only
  rw [scanString_key_result]
  simp only
  rw [skipSpace_of_not_space _ _ (by decide)]
  simp only
  rw [hpv]
  simp only
  rw [skipSpace_of_not_space _ _ (by decide)]
  simp only
  rw [parseMembers, skipSpace_of_not_space _ _ (by decide)]
  simp only
  rw [scanString_key_error]
  simp only
  rw [skipSpace_of_not_space _ _ (by decide)]
  simp only
  rw [hpv]
  simp only
  rw [skipSpace_of_not_space _ _ (by decide)]
  simp only
  rfl

theorem parseValue_payload (n : Nat) (r e : List Char) :
    parseValue (n + 3) 0
        ('{' :: '"' :: 'r' :: 'e' :: 's' :: 'u' :: 'l' :: 't' :: '"' :: ':' :: '"' ::
          (r.flatMap encodeChar ++ '"' :: ',' :: '"' :: 'e' :: 'r' :: 'r' :: 'o' :: 'r'
            :: '"' :: ':' :: '"' :: (e.flatMap encodeChar ++ ['"', '}'])))
      = .ok (.object [("result".data, .string r), ("error".data, .string e)], []) := by
  rw [parseValue, skipSpace_of_not_space _ _ (by decide)]
  simp only
  rw [if_pos (by decide), if_neg (by decide), skipSpace_of_not_space _ _ (by decide)]
  rw [parseMembers_payload _ (fun cs rest => parseValue_string _ _ cs rest)]
  rfl

theorem parse_encodePayload (r e : String) :
    parse (encodePayload r e).data
      = .ok (.object [("result".data, .string r.data), ("error".data, .string e.data)]) := by
  rw [encodePayload_data]
  obtain ⟨n, hn⟩ : ∃ n, ('{' :: '"' :: 'r' :: 'e' :: 's' :: 'u' :: 'l' :: 't' :: '"' :: ':' :: '"' ::
        (r.data.flatMap encodeChar ++ '"' :: ',' :: '"' :: 'e' :: 'r' :: 'r' :: 'o' :: 'r'
          :: '"' :: ':' :: '"' :: (e.data.flatMap encodeChar ++ ['"', '}']))).length + 1
        = n + 3 := ⟨_, by simp only [List.length_cons]; rfl⟩
  rw [parse, hn, parseValue_payload]
  rfl

theorem unmarshal_encodePayload (r e : String) :
    unmarshal (encodePayload r e) = .ok ⟨r, e⟩ := by
  rw [unmarshal, parse_encodePayload]
  rfl

end Roundtrip

/-! ## The engine against the first violating move -/

namespace Engine

theorem leavesGridAt_zero (g : Grid) (r : Rover) (c : Command) (cs : List Command) :
    LeavesGridAt g r (c :: cs) 0 ↔ c = .M ∧ g.contains (r.applyCommand c) = false := by
  simp [LeavesGridAt, exec]

theorem leavesGridAt_succ (g : Grid) (r : Rover) (c : Command) (cs : List Command) (j : Nat) :
    LeavesGridAt g r (c :: cs) (j + 1) ↔ LeavesGridAt g (r.applyCommand c) cs j := by
  simp [LeavesGridAt, exec]

theorem runCommands_cons (g : Grid) (r : Rover) (c : Command) (cs : List Command) :
    runCommands g r (c :: cs)
      = if c = .M ∧ g.contains (r.applyCommand c) = false then .error r.heading
        else runCommands g (r.applyCommand c) cs := by
  cases c <;> simp [runCommands]
  by_cases h : g.contains (r.applyCommand .M) <;> simp [h]

theorem runCommands_safe (g : Grid) (cmds : List Command) (r : Rover)
    (h : ∀ j, j < cmds.length → ¬ LeavesGridAt g r cmds j) :
    runCommands g r cmds = .ok (exec r cmds) := by
  induction cmds generalizing r with
  | nil => rfl
  | cons c cs ih =>
    have h0 := h 0 (by simp)
    rw [leavesGridAt_zero] at h0
    rw [runCommands_cons, if_neg h0, ih]
    · rfl
    · intro j hj
      have := h (j + 1) (by simpa using hj)
      rwa [leavesGridAt_succ] at this

theorem runCommands_violation (g : Grid) (cmds : List Command) (r : Rover) (j : Nat)
    (hb : ∀ j', j' < j → ¬ LeavesGridAt g r cmds j') (hj : LeavesGridAt g r cmds j) :
    runCommands g r cmds = .error (exec r (cmds.take j)).heading := by
  induction cmds generalizing r j with
  | nil => simp [LeavesGridAt] at hj
  | cons c cs ih =>
    cases j with
    | zero =>
      rw [leavesGridAt_zero] at hj
      rw [runCommands_cons, if_pos hj]
      rfl
    | succ j =>
      have h0 := hb 0 (by omega)
      rw [leavesGridAt_zero] at h0
      rw [leavesGridAt_succ] at hj
      rw [runCommands_cons, if_neg h0, ih _ j _ hj]
      · rfl
      · intro j' hj'
        have := hb (j' + 1) (by omega)
        rwa [leavesGridAt_succ] at this

theorem simulate_safe (g : Grid) (progs : List RoverProgram)
    (h : ∀ q ∈ progs, Safe g q) :
    simulate g progs = .ok (progs.map fun q => exec q.start q.commands) := by
  induction progs with
  | nil => rfl
  | cons p ps ih =>
    rw [simulate, runCommands_safe g _ _ (h p (by simp)), ih (fun q hq => h q (by simp [hq]))]
    rfl

theorem simulate_violation (g : Grid) (progs : List RoverProgram) (i : Nat) (p : RoverProgram)
    (j : Nat) (h : FirstViolation g progs i p j) :
    simulate g progs = .error (exec p.start (p.commands.take j)).heading := by
  induction progs generalizing i with
  | nil => simp [FirstViolation] at h
  | cons q qs ih =>
    obtain ⟨hi, hbefore, hb, hj⟩ := h
    cases i with
    | zero =>
      simp at hi
      subst hi
      rw [simulate, runCommands_violation g _ _ j hb hj]
    | succ i =>
      have hq : Safe g q := hbefore q (by simp)
      rw [simulate, runCommands_safe g _ _ hq]
      simp only
      rw [ih i ⟨by simpa using hi, fun q' hq' => hbefore q' (by simp [hq']), hb, hj⟩]

theorem exists_firstViolation (g : Grid) (progs : List RoverProgram)
    (h : ∃ (i : Nat) (p : RoverProgram) (j : Nat),
      progs[i]? = some p ∧ LeavesGridAt g p.start p.commands j) :
    ∃ i p j, FirstViolation g progs i p j := by
  classical
  have h1 : ∃ i : Nat, ∃ (p : RoverProgram) (j : Nat),
      progs[i]? = some p ∧ LeavesGridAt g p.start p.commands j := h
  obtain ⟨p, j, hp, hj⟩ := Nat.find_spec h1
  have h2 : ∃ j, LeavesGridAt g p.start p.commands j := ⟨j, hj⟩
  refine ⟨Nat.find h1, p, Nat.find h2, hp, ?_, ?_, Nat.find_spec h2⟩
  · intro q hq k _ hk
    obtain ⟨i', hi', rfl⟩ := List.mem_take_iff_getElem.mp hq
    have hlt : i' < Nat.find h1 := lt_of_lt_of_le hi' (Nat.min_le_left _ _)
    have hlen : i' < progs.length := lt_of_lt_of_le hi' (Nat.min_le_right _ _)
    exact Nat.find_min h1 hlt ⟨progs[i'], k, List.getElem?_eq_getElem hlen, hk⟩
  · intro j' hj' hk
    exact Nat.find_min h2 hj' hk

end Engine

/-! ## The caller: `getRoverCoordinates`, `resolveLibPath`, `main` -/

/-- C1 (code defect): the `error` field is passed to `fmt.Errorf` as the
format, so a field with a percent sign in it is not returned character for
character: the payload with `error` = `Illegal command %` decodes to that
field, and the error returned reads `Illegal command %!(NOVERB)`. -/
theorem getRoverCoordinates_error_field_as_format :
    Json.unmarshal "\x7b\"result\":\"\",\"error\":\"Illegal command %\"\x7d"
        = .ok ⟨"", "Illegal command %"⟩ ∧
      (getRoverCoordinates
          (constant "\x7b\"result\":\"\",\"error\":\"Illegal command %\"\x7d" : externFunc Unit)
          "5 5" "1 2 N\n%" ()).1
        = ("", some (.errorString "Illegal command %!(NOVERB)")) ∧
      (GoError.errorString "Illegal command %!(NOVERB)").Error ≠ "Illegal command %" := by
  decide

/-- C2: a payload that decodes with an empty `error` field and `result`
field `r` makes `getRoverCoordinates` return `(r, nil)`. -/
theorem getRoverCoordinates_result_passed_through {σ : Type} (call : externFunc σ)
    (topRight instructions : String) (w : σ) (r : String)
    (h : Json.unmarshal (call topRight instructions w).1 = .ok ⟨r, ""⟩) :
    (getRoverCoordinates call topRight instructions w).1 = (r, none) := by
  simp [getRoverCoordinates, h]

theorem getRoverCoordinates_result_passed_through_witness :
    Json.unmarshal ((constant "\x7b\"result\":\"1 3 N\\n5 1 E\",\"error\":\"\"\x7d" :
        externFunc Unit) "5 5" "1 2 N\nLMLMLMLMM\n3 3 E\nMMRMMRMRRM" ()).1
        = .ok ⟨"1 3 N\n5 1 E", ""⟩ ∧
      (getRoverCoordinates
          (constant "\x7b\"result\":\"1 3 N\\n5 1 E\",\"error\":\"\"\x7d" : externFunc Unit)
          "5 5" "1 2 N\nLMLMLMLMM\n3 3 E\nMMRMMRMRRM" ()).1 = ("1 3 N\n5 1 E", none) :=
  ⟨by decide, getRoverCoordinates_result_passed_through _ _ _ _ _ (by decide)⟩

/-- C3: a payload that `json.Unmarshal` rejects with error `err` makes
`getRoverCoordinates` return the empty result and a non-nil error whose text
is `decoding in go from rust result: ` followed by the text of `err`. -/
theorem getRoverCoordinates_undecodable {σ : Type} (call : externFunc σ)
    (topRight instructions : String) (w : σ) (err : Json.JsonError)
    (h : Json.unmarshal (call topRight instructions w).1 = .error err) :
    ∃ e : GoError,
      (getRoverCoordinates call topRight instructions w).1 = ("", some e) ∧
      e.Error = "decoding in go from rust result: " ++ err.Error ∧
      "decoding in go from rust result: ".data <+: e.Error.data := by
  refine ⟨errorfDecoding err, ?_, rfl, ?_⟩
  · simp [getRoverCoordinates, h]
  · exact ⟨err.Error.data, rfl⟩

theorem getRoverCoordinates_undecodable_witness :
    Json.unmarshal ((constant "1 3 N" : externFunc Unit) "5 5" "1 2 N\nLMLMLMLMM" ()).1
        = .error (.syntaxError "invalid character '3' after top-level value") ∧
      ∃ e : GoError,
        (getRoverCoordinates (constant "1 3 N" : externFunc Unit) "5 5" "1 2 N\nLMLMLMLMM" ()).1
          = ("", some e) ∧
        e.Error = "decoding in go from rust result: "
          ++ (Json.JsonError.syntaxError "invalid character '3' after top-level value").Error ∧
        "decoding in go from rust result: ".data <+: e.Error.data :=
  ⟨by decide, getRoverCoordinates_undecodable _ _ _ _ _ (by decide)⟩

/-- C4: a payload that decodes with a non-empty `error` field makes
`getRoverCoordinates` return the empty string as its result, whatever the
`result` field holds. -/
theorem getRoverCoordinates_error_authoritative {σ : Type} (call : externFunc σ)
    (topRight instructions : String) (w : σ) (out : Json.CoordinatesResult)
    (h : Json.unmarshal (call topRight instructions w).1 = .ok out)
    (he : out.Error ≠ "") :
    (getRoverCoordinates call topRight instructions w).1.1 = "" ∧
      (getRoverCoordinates call topRight instructions w).1.2 ≠ none := by
  simp [getRoverCoordinates, h, he]

theorem getRoverCoordinates_error_authoritative_witness :
    Json.unmarshal ((constant "\x7b\"result\":\"1 3 N\",\"error\":\"too far\"\x7d" :
        externFunc Unit) "5 5" "1 2 N\nM" ()).1 = .ok ⟨"1 3 N", "too far"⟩ ∧
      (⟨"1 3 N", "too far"⟩ : Json.CoordinatesResult).Error ≠ "" ∧
      (getRoverCoordinates (constant "\x7b\"result\":\"1 3 N\",\"error\":\"too far\"\x7d" :
        externFunc Unit) "5 5" "1 2 N\nM" ()).1.1 = "" ∧
      (getRoverCoordinates (constant "\x7b\"result\":\"1 3 N\",\"error\":\"too far\"\x7d" :
        externFunc Unit) "5 5" "1 2 N\nM" ()).1.2 ≠ none :=
  ⟨by decide, by decide,
    getRoverCoordinates_error_authoritative _ _ _ _ ⟨"1 3 N", "too far"⟩ (by decide) (by decide)⟩

/-- C5 as stated fails: the payload with both fields empty decodes, and
`getRoverCoordinates` returns the empty result together with a nil error. -/
theorem getRoverCoordinates_not_exactly_one :
    ¬ ExactlyOne (getRoverCoordinates
      (constant "\x7b\"result\":\"\",\"error\":\"\"\x7d" : externFunc Unit) "5 5" "" ()).1 := by
  decide

/-- C5 as amended: `getRoverCoordinates` returns either the decoded `result`
field, which may be empty, with a nil error, or the empty string with a
non-nil error; never a non-empty result together with a non-nil error. -/
theorem getRoverCoordinates_result_or_error {σ : Type} (call : externFunc σ)
    (topRight instructions : String) (w : σ) :
    ((∃ out : Json.CoordinatesResult,
        Json.unmarshal (call topRight instructions w).1 = .ok out ∧ out.Error = "" ∧
        (getRoverCoordinates call topRight instructions w).1 = (out.Result, none)) ∨
      ((getRoverCoordinates call topRight instructions w).1.1 = "" ∧
        (getRoverCoordinates call topRight instructions w).1.2 ≠ none)) ∧
    ¬ ((getRoverCoordinates call topRight instructions w).1.1 ≠ "" ∧
        (getRoverCoordinates call topRight instructions w).1.2 ≠ none) := by
  cases hu : Json.unmarshal (call topRight instructions w).1 with
  | error err => simp [getRoverCoordinates, hu]
  | ok out =>
    by_cases he : out.Error = ""
    · simp [getRoverCoordinates, hu, he]
    · simp [getRoverCoordinates, hu, he]

/-- C6: `resolveLibPath` is the table of three platforms, every other pair
being `unsupported platform`, and the three paths differ from one another. -/
theorem resolveLibPath_table :
    resolveLibPath "linux" "amd64"
        = ("target/x86_64-unknown-linux-gnu/release/libc_rover.so", none) ∧
      resolveLibPath "linux" "arm64"
        = ("target/aarch64-unknown-linux-gnu/release/libc_rover.so", none) ∧
      resolveLibPath "darwin" "arm64"
        = ("target/aarch64-apple-darwin/release/libc_rover.so", none) ∧
      (∀ GOOS GOARCH : String,
        ¬ (GOOS = "linux" ∧ GOARCH = "amd64") → ¬ (GOOS = "linux" ∧ GOARCH = "arm64") →
        ¬ (GOOS = "darwin" ∧ GOARCH = "arm64") →
        ∃ e : GoError, resolveLibPath GOOS GOARCH = ("", some e) ∧
          e.Error = "unsupported platform") ∧
      (resolveLibPath "linux" "amd64").1 ≠ (resolveLibPath "linux" "arm64").1 ∧
      (resolveLibPath "linux" "amd64").1 ≠ (resolveLibPath "darwin" "arm64").1 ∧
      (resolveLibPath "linux" "arm64").1 ≠ (resolveLibPath "darwin" "arm64").1 := by
  refine ⟨by decide, by decide, by decide, ?_, by decide, by decide, by decide⟩
  intro GOOS GOARCH h1 h2 h3
  refine ⟨errorf0 "unsupported platform", ?_, by decide⟩
  simp only [resolveLibPath, if_neg h1, if_neg h2, if_neg h3]

theorem resolveLibPath_table_witness :
    ∃ e : GoError, resolveLibPath "windows" "amd64" = ("", some e) ∧
      e.Error = "unsupported platform" :=
  resolveLibPath_table.2.2.2.1 "windows" "amd64" (by decide) (by decide) (by decide)

/-- C9 (code defect): on linux/amd64 with the library loaded and the foreign
function answering with a bounds violation, the call returns a non-nil error
and `main` prints the error value and then, all the same, the line
`Success! Received the output from rust. Final coordinates:` and the empty
result. -/
theorem main_prints_success_after_error :
    (get_rover_coordinates (constant
        "\x7b\"result\":\"\",\"error\":\"Instruction tried to send Rover too far \\\"N\\\"\"\x7d" :
        externFunc Unit) "5 5" "1 2 N\nLMLMLMLMM\n3 3 E\nMMRMMRMRRM" ()).1.2
        = some (.errorString "Instruction tried to send Rover too far \"N\"") ∧
      (main (σ := Unit) ⟨"linux", "amd64", fun _ => .ok 1, fun _ _ => some (constant
        "\x7b\"result\":\"\",\"error\":\"Instruction tried to send Rover too far \\\"N\\\"\"\x7d")⟩
        ()).1
        = [.println "Top right go input:", .println "5 5",
            .println "Starting position and instructions go inputs:",
            .println "1 2 N\nLMLMLMLMM\n3 3 E\nMMRMMRMRRM",
            .printlnError (.errorString "Instruction tried to send Rover too far \"N\""),
            .println "Success! Received the output from rust. Final coordinates:",
            .println "", .dlclose 1] := by
  decide

/-- C10: the closure `get_rover_coordinates` of `main` and
`getRoverCoordinates` return the same result and the same error and leave the
same world; that world is the one left by a single call of the foreign
function with the two arguments as given, so a logging foreign function has
logged exactly that one call. -/
theorem get_rover_coordinates_eq_getRoverCoordinates {σ : Type} (f : externFunc σ)
    (topRight instructions : String) (w : σ) :
    get_rover_coordinates f topRight instructions w
        = getRoverCoordinates f topRight instructions w ∧
      (getRoverCoordinates f topRight instructions w).2 = (f topRight instructions w).2 ∧
      (get_rover_coordinates f topRight instructions w).2 = (f topRight instructions w).2 ∧
      (∀ g : String → String → String,
        (getRoverCoordinates (logged g) topRight instructions []).2
            = [(topRight, instructions)] ∧
          (get_rover_coordinates (logged g) topRight instructions []).2
            = [(topRight, instructions)]) := by
  have key : ∀ {τ : Type} (k : externFunc τ) (v : τ),
      (getRoverCoordinates k topRight instructions v).2 = (k topRight instructions v).2 := by
    intro τ k v
    cases hu : Json.unmarshal (k topRight instructions v).1 with
    | error err => simp [getRoverCoordinates, hu]
    | ok out => by_cases he : out.Error = "" <;> simp [getRoverCoordinates, hu, he]
  have same : ∀ {τ : Type} (k : externFunc τ) (v : τ),
      get_rover_coordinates k topRight instructions v
        = getRoverCoordinates k topRight instructions v := fun _ _ => rfl
  refine ⟨same f w, key f w, (same f w) ▸ key f w, fun g => ⟨?_, ?_⟩⟩
  · rw [key]; rfl
  · rw [same, key]; rfl


/-! ## The engine seen through the caller -/

open Engine in
/-- C7: when the grid and the instruction block parse and some M command
would take a rover outside the grid, the run has a first violating move, and
for the heading `h` held at that move the payload of the entry point is the
one with empty `result` and `error` = `Instruction tried to send Rover too far
"h"`, which `getRoverCoordinates` returns as its error, with an empty
result. -/
theorem bounds_violation_aborts_run {σ : Type} (topRight instructions : String) (w : σ)
    (g : Grid) (progs : List RoverProgram)
    (hg : parseGrid topRight.data = .ok g)
    (hp : parseInstructions instructions.data = .ok progs)
    (hv : ∃ (i : Nat) (p : RoverProgram) (j : Nat),
      progs[i]? = some p ∧ LeavesGridAt g p.start p.commands j) :
    (∃ (i : Nat) (p : RoverProgram) (j : Nat), FirstViolation g progs i p j) ∧
      ∀ (i : Nat) (p : RoverProgram) (j : Nat), FirstViolation g progs i p j →
        extern_return_coordinates topRight instructions
            = encodePayload "" (boundsMessage (exec p.start (p.commands.take j)).heading) ∧
          Json.unmarshal (extern_return_coordinates topRight instructions)
            = .ok ⟨"", boundsMessage (exec p.start (p.commands.take j)).heading⟩ ∧
          getRoverCoordinates library topRight instructions w
            = (("", some (.errorString
                (boundsMessage (exec p.start (p.commands.take j)).heading))), w) := by
  refine ⟨exists_firstViolation g progs hv, ?_⟩
  intro i p j hf
  have hpay : extern_return_coordinates topRight instructions
      = encodePayload "" (boundsMessage (exec p.start (p.commands.take j)).heading) := by
    simp only [extern_return_coordinates, hg, hp, simulate_violation g progs i p j hf]
  have hdec := unmarshal_encodePayload ""
    (boundsMessage (exec p.start (p.commands.take j)).heading)
  refine ⟨hpay, hpay ▸ hdec, ?_⟩
  have hne : ∀ h : Heading, boundsMessage h ≠ "" ∧
      errorf0 (boundsMessage h) = .errorString (boundsMessage h) := by
    intro h; cases h <;> decide
  simp only [getRoverCoordinates, library, hpay, hdec, ne_eq, (hne _).1, not_false_eq_true,
    if_true, (hne _).2]

open Engine in
theorem bounds_violation_aborts_run_witness :
    parseGrid "5 5".data = .ok ⟨5, 5⟩ ∧
      parseInstructions "1 2 N\nMMMMMMMMMMMMMMMM".data
        = .ok [⟨⟨1, 2, .N⟩, List.replicate 16 .M⟩] ∧
      FirstViolation ⟨5, 5⟩ [⟨⟨1, 2, .N⟩, List.replicate 16 .M⟩] 0
        ⟨⟨1, 2, .N⟩, List.replicate 16 .M⟩ 3 ∧
      getRoverCoordinates library "5 5" "1 2 N\nMMMMMMMMMMMMMMMM" ()
        = (("", some (.errorString "Instruction tried to send Rover too far \"N\"")), ()) :=
  ⟨by decide, by decide, by decide,
    ((bounds_violation_aborts_run "5 5" "1 2 N\nMMMMMMMMMMMMMMMM" () ⟨5, 5⟩
      [⟨⟨1, 2, .N⟩, List.replicate 16 .M⟩] (by decide) (by decide)
      ⟨0, ⟨⟨1, 2, .N⟩, List.replicate 16 .M⟩, 3, by decide⟩).2 0
      ⟨⟨1, 2, .N⟩, List.replicate 16 .M⟩ 3 (by decide)).2.2⟩

open Engine in
/-- C8: when the grid and the instruction block parse and no M command of
any rover leaves the grid, the payload of the entry point has an empty
`error` and as `result` the lines `<x> <y> <heading>` of the rovers' final
states, in input order, joined by single newlines; `getRoverCoordinates`
returns that text and a nil error. The final state of a rover is its start
state taken through its commands, where L and R turn along the cycle N, E, S,
W and leave the position, and M adds the unit step of the heading. -/
theorem successful_simulation {σ : Type} (topRight instructions : String) (w : σ)
    (g : Grid) (progs : List RoverProgram)
    (hg : parseGrid topRight.data = .ok g)
    (hp : parseInstructions instructions.data = .ok progs)
    (hs : ∀ q ∈ progs, Safe g q) :
    (extern_return_coordinates topRight instructions
        = encodePayload
            ("\n".intercalate (progs.map fun q => formatRover (exec q.start q.commands))) "" ∧
      Json.unmarshal (extern_return_coordinates topRight instructions)
        = .ok ⟨"\n".intercalate (progs.map fun q => formatRover (exec q.start q.commands)), ""⟩ ∧
      getRoverCoordinates library topRight instructions w
        = (("\n".intercalate (progs.map fun q => formatRover (exec q.start q.commands)), none),
            w)) ∧
    (∀ (r : Rover) (c : Command) (cs : List Command),
        exec r [] = r ∧ exec r (c :: cs) = exec (r.applyCommand c) cs) ∧
    (∀ r : Rover,
        r.applyCommand .L = ⟨r.x, r.y, r.heading.turnLeft⟩ ∧
        r.applyCommand .R = ⟨r.x, r.y, r.heading.turnRight⟩ ∧
        r.applyCommand .M = ⟨r.x + r.heading.delta.1, r.y + r.heading.delta.2, r.heading⟩) ∧
    (Heading.N.turnRight = .E ∧ Heading.E.turnRight = .S ∧ Heading.S.turnRight = .W ∧
        Heading.W.turnRight = .N) ∧
    (Heading.N.turnLeft = .W ∧ Heading.W.turnLeft = .S ∧ Heading.S.turnLeft = .E ∧
        Heading.E.turnLeft = .N) ∧
    (Heading.N.delta = (0, 1) ∧ Heading.E.delta = (1, 0) ∧ Heading.S.delta = (0, -1) ∧
        Heading.W.delta = (-1, 0)) := by
  refine ⟨?_, fun r c cs => ⟨rfl, rfl⟩, fun r => ⟨rfl, rfl, rfl⟩, by decide, by decide,
    by decide⟩
  have hpay : extern_return_coordinates topRight instructions
      = encodePayload
          ("\n".intercalate (progs.map fun q => formatRover (exec q.start q.commands))) "" := by
    simp only [extern_return_coordinates, hg, hp, simulate_safe g progs hs, formatResult,
      List.map_map]
    rfl
  have hdec := unmarshal_encodePayload
    ("\n".intercalate (progs.map fun q => formatRover (exec q.start q.commands))) ""
  refine ⟨hpay, hpay ▸ hdec, ?_⟩
  simp [getRoverCoordinates, library, hpay, hdec]

open Engine in
theorem successful_simulation_witness :
    parseGrid "5 5".data = .ok ⟨5, 5⟩ ∧
      parseInstructions "1 2 N\nLMLMLMLMM\n3 3 E\nMMRMMRMRRM".data
        = .ok [⟨⟨1, 2, .N⟩, [.L, .M, .L, .M, .L, .M, .L, .M, .M]⟩,
            ⟨⟨3, 3, .E⟩, [.M, .M, .R, .M, .M, .R, .M, .R, .R, .M]⟩] ∧
      (∀ q ∈ [(⟨⟨1, 2, .N⟩, [.L, .M, .L, .M, .L, .M, .L, .M, .M]⟩ : RoverProgram),
            ⟨⟨3, 3, .E⟩, [.M, .M, .R, .M, .M, .R, .M, .R, .R, .M]⟩], Safe ⟨5, 5⟩ q) ∧
      getRoverCoordinates library "5 5" "1 2 N\nLMLMLMLMM\n3 3 E\nMMRMMRMRRM" ()
        = (("1 3 N\n5 1 E", none), ()) :=
  ⟨by decide, by decide, by decide,
    (successful_simulation "5 5" "1 2 N\nLMLMLMLMM\n3 3 E\nMMRMMRMRRM" () ⟨5, 5⟩
      [⟨⟨1, 2, .N⟩, [.L, .M, .L, .M, .L, .M, .L, .M, .M]⟩,
        ⟨⟨3, 3, .E⟩, [.M, .M, .R, .M, .M, .R, .M, .R, .R, .M]⟩]
      (by decide) (by decide) (by decide)).1.2.2⟩

end RustRover
